import Mathlib

/-!
# The GNOME bridge of auto-dark-mode (`DarkModeGnome.cpp`)

A shallow embedding of the four JNI entry points of
`src/linux/gnome/src/main/cpp/DarkModeGnome.cpp` and of the `EventHandler`
struct they manage.

The C++ code is stateful and talks to three collaborators it does not own: the
GSettings store (through giomm), the sigc++ signal of the settings object, and
the Java virtual machine (through JNI).  The embedding makes all of that state
explicit in one record, `State`, and every function of the source becomes a
function on `State`.  What the code cannot control (the status codes the JVM
returns, the address `operator new` hands out, what the callback does when it
runs) is collected in a second record, `Host`, over which the theorems
quantify.

Executions with undefined behaviour in C++ (dereferencing the null `settings`
pointer, touching a freed `EventHandler`, using a deleted global reference)
end in a `Fault`.  Every effect on a collaborator is appended to `State.log`,
so the order and the number of the effects can be stated.

Java objects are identified by a number and the `jobject` arguments are taken
to be real objects (the Java side declares the callback as a `Runnable`).

The values of the settings store are text (GVariant strings).  On the way to
Java the text changes representation twice, and both steps are modelled:
`Glib::ustring::c_str()` yields the bytes of its UTF-8 encoding up to the first
NUL, and JNI `NewStringUTF` decodes bytes as modified UTF-8 into the UTF-16
code units of a Java string.
-/

set_option linter.dupNamespace false

namespace DarkModeGnome

/-! ## Data model -/

/-- Identity of a Java object (the callback handed in by the caller). -/
abbrev JObject := Nat

/-- A JNI global reference. -/
abbrev GlobalRef := Nat

/-- A native address; `0` is the null pointer.  A `jlong` handle carries the
same bits, so handles are addresses. -/
abbrev Addr := Nat

/-- Identity of one sigc++ connection. -/
abbrev ConnId := Nat

/-- A Java string: its UTF-16 code units. -/
abbrev JString := List Nat

/-- Status code `JNI_OK` of `jni.h`. -/
def JNI_OK : Int := 0

/-- Status code `JNI_EDETACHED` of `jni.h`. -/
def JNI_EDETACHED : Int := -2

/-- Status code `JNI_EVERSION` of `jni.h`. -/
def JNI_EVERSION : Int := -3

/-- Line 32: the schema that `init` opens. -/
def SETTINGS_SCHEMA_NAME : String := "org.gnome.desktop.interface"

/-- Line 33: the key that is read and watched. -/
def THEME_NAME_KEY : String := "gtk-theme"

/-- Effects on the collaborators, in the order they happen. -/
inductive Event where
  | newGlobalRef (r : GlobalRef) (o : JObject)
  | deleteGlobalRef (r : GlobalRef)
  | operatorNew (a : Addr)
  | operatorDelete (a : Addr)
  | connect (c : ConnId) (a : Addr)
  | disconnect (c : ConnId)
  | settingChanged (a : Addr)
  | attachCurrentThread (rc : Int)
  | detachCurrentThread
  | callVoidMethod (r : GlobalRef) (o : JObject)
  | exceptionDescribe
  deriving DecidableEq, Repr

/-- Undefined behaviour and aborts of the C++ program. -/
inductive Fault where
  | nullSettings
  | useAfterFree (a : Addr)
  | invalidRef (r : GlobalRef)
  | notModifiedUtf8
  | abort
  deriving DecidableEq, Repr

/-- Lines 41-45: the fields of `struct EventHandler`. -/
structure EventHandler where
  jvm : Addr
  env : Addr
  callback : GlobalRef
  settingsChangedSignalConnection : ConnId
  deriving DecidableEq, Repr

/-- A `Gio::Settings` object: its identity and the schema it was opened on. -/
structure Settings where
  id : Nat
  schema : String
  deriving DecidableEq, Repr

/-- One slot connected to `signal_changed(key)` of a settings object; `target`
is the `this` pointer bound by `sigc::mem_fun`. -/
structure Slot where
  id : ConnId
  source : Nat
  key : String
  target : Addr
  deriving DecidableEq, Repr

/-- The whole state the program can observe or change.

* `store`: the GSettings store, schema by schema, key by key;
* `settings`: the global `Glib::RefPtr<Gio::Settings> settings` of line 34;
* `heap`: the live `EventHandler` objects;
* `conns`: the connected slots, in connection order;
* `globals`: the JNI global references and the objects they refer to;
* `attached`, `pending`: the notifying thread as the JVM sees it (attached or
  not, with or without a pending exception);
* `log`: the effects so far. -/
structure State where
  store : List (String × List (String × String))
  gioInitialized : Bool
  settings : Option Settings
  settingsCount : Nat
  heap : List (Addr × EventHandler)
  conns : List Slot
  connCount : Nat
  globals : List (GlobalRef × JObject)
  attached : Bool
  pending : Bool
  log : List Event
  deriving DecidableEq, Repr

/-- What the environment decides.

* `getJavaVM`: the status `GetJavaVM` returns, `javaVM` the pointer it stores;
* `threadEnv`: the `JNIEnv` of the notifying thread;
* `versionSupported`: whether the JVM supports `JNI_VERSION_1_6`;
* `attachCurrentThread`: the status `AttachCurrentThread` returns;
* `operatorNew`: the address `new` returns, given the live addresses;
* `newGlobalRef`: the reference `NewGlobalRef` returns, given those in use;
* `hasRun`: whether the class of the object has a method `run` of type `()V`;
* `runThrows`: whether that method ends with a Java exception. -/
structure Host where
  getJavaVM : Int
  javaVM : Addr
  threadEnv : Addr
  versionSupported : Bool
  attachCurrentThread : Int
  operatorNew : List Addr → Addr
  newGlobalRef : List GlobalRef → GlobalRef
  hasRun : JObject → Bool
  runThrows : JObject → Bool

/-- The guarantees of `operator new` and of `NewGlobalRef`: the result is not
null and is not in use. -/
structure Host.Sound (H : Host) : Prop where
  new_ne_null : ∀ live, H.operatorNew live ≠ 0
  new_fresh : ∀ live, H.operatorNew live ∉ live
  ref_fresh : ∀ used, H.newGlobalRef used ∉ used

/-! ## The collaborators -/

/-- JNI `NewGlobalRef`: a new global reference to the object. -/
def NewGlobalRef (H : Host) (s : State) (o : JObject) : GlobalRef × State :=
  let r := H.newGlobalRef (s.globals.map Prod.fst)
  (r, { s with globals := (r, o) :: s.globals, log := s.log ++ [Event.newGlobalRef r o] })

/-- JNI `DeleteGlobalRef`: the reference is released; releasing a reference
that is not in use is undefined. -/
def DeleteGlobalRef (s : State) (r : GlobalRef) : Except Fault State :=
  match s.globals.lookup r with
  | none => .error (Fault.invalidRef r)
  | some _ =>
    .ok { s with globals := s.globals.filter (fun p => p.1 != r),
                 log := s.log ++ [Event.deleteGlobalRef r] }

/-- JNI `GetEnv(JNI_VERSION_1_6)`: status and the value stored through the
out-pointer. -/
def GetEnv (H : Host) (s : State) : Int × Addr :=
  if s.attached then
    if H.versionSupported then (JNI_OK, H.threadEnv) else (JNI_EVERSION, 0)
  else (JNI_EDETACHED, 0)

/-- A write to the `env` field of the handler at `this`. -/
def setEnv (heap : List (Addr × EventHandler)) (this : Addr) (e : Addr) :
    List (Addr × EventHandler) :=
  heap.map (fun p => if p.1 = this then (p.1, { p.2 with env := e }) else p)

/-- JNI `AttachCurrentThread`, writing the environment to `this->env`. -/
def AttachCurrentThread (H : Host) (s : State) (this : Addr) : Int × State :=
  if H.attachCurrentThread = 0 then
    (0, { s with attached := true, heap := setEnv s.heap this H.threadEnv,
                 log := s.log ++ [Event.attachCurrentThread 0] })
  else
    (H.attachCurrentThread,
      { s with log := s.log ++ [Event.attachCurrentThread H.attachCurrentThread] })

/-- JNI `DetachCurrentThread`. -/
def DetachCurrentThread (s : State) : State :=
  { s with attached := false, log := s.log ++ [Event.detachCurrentThread] }

/-- JNI `GetMethodID(cls, "run", "()V")`: whether the result is non-null; a
failed lookup leaves a `NoSuchMethodError` pending. -/
def GetMethodID (H : Host) (s : State) (o : JObject) : Bool × State :=
  if H.hasRun o then (true, s) else (false, { s with pending := true })

/-- JNI `CallVoidMethod(callback, runMethodId)`: the callback runs; an
exception it raises becomes pending. -/
def CallVoidMethod (H : Host) (s : State) (r : GlobalRef) (o : JObject) : State :=
  { s with pending := s.pending || H.runThrows o,
           log := s.log ++ [Event.callVoidMethod r o] }

/-- JNI `ExceptionCheck`. -/
def ExceptionCheck (s : State) : Bool := s.pending

/-- JNI `ExceptionDescribe`: prints the pending exception and clears it. -/
def ExceptionDescribe (s : State) : State :=
  { s with pending := false, log := s.log ++ [Event.exceptionDescribe] }

/-- The `new` of line 89: an address for the handler. -/
def operatorNew (H : Host) (s : State) : Addr × State :=
  let a := H.operatorNew (s.heap.map Prod.fst)
  (a, { s with log := s.log ++ [Event.operatorNew a] })

/-- The `delete` of line 102. -/
def operatorDelete (s : State) (a : Addr) : Except Fault State :=
  match s.heap.lookup a with
  | none => .error (Fault.useAfterFree a)
  | some _ =>
    .ok { s with heap := s.heap.filter (fun p => p.1 != a),
                 log := s.log ++ [Event.operatorDelete a] }

/-- The call `Gio::Settings::get_string(key)`; a schema or key that does not
exist aborts the process. -/
def Settings.get_string (s : State) (st : Settings) (key : String) : Except Fault String :=
  match s.store.lookup st.schema with
  | none => .error Fault.abort
  | some kv =>
    match kv.lookup key with
    | none => .error Fault.abort
    | some v => .ok v

/-- The bytes of one character in UTF-8, the encoding of `Glib::ustring`. -/
def utf8EncodeChar (c : Nat) : List Nat :=
  if c < 0x80 then [c]
  else if c < 0x800 then [0xC0 + c / 64, 0x80 + c % 64]
  else if c < 0x10000 then [0xE0 + c / 4096, 0x80 + c / 64 % 64, 0x80 + c % 64]
  else [0xF0 + c / 262144, 0x80 + c / 4096 % 64, 0x80 + c / 64 % 64, 0x80 + c % 64]

/-- The bytes of a text in UTF-8. -/
def utf8Encode : List Char → List Nat
  | [] => []
  | c :: cs => utf8EncodeChar c.toNat ++ utf8Encode cs

/-- The UTF-16 code units of one character: itself in the Basic Multilingual
Plane, a surrogate pair above it. -/
def utf16EncodeChar (c : Nat) : List Nat :=
  if c < 0x10000 then [c]
  else [0xD800 + (c - 0x10000) / 1024, 0xDC00 + (c - 0x10000) % 1024]

/-- The UTF-16 code units of a text. -/
def utf16Encode : List Char → List Nat
  | [] => []
  | c :: cs => utf16EncodeChar c.toNat ++ utf16Encode cs

/-- The Java string whose text is `v`. -/
def javaString (v : String) : JString := utf16Encode v.data

/-- The call `Glib::ustring::c_str()`: the UTF-8 bytes of the text as a C
string, which ends at the first NUL. -/
def c_str (v : String) : List Nat :=
  (utf8Encode v.data).takeWhile (fun b => b != 0)

/-- A continuation byte `10xxxxxx`. -/
def isContinuation (b : Nat) : Bool := decide (0x80 ≤ b) && decide (b < 0xC0)

/-- JNI `NewStringUTF`: the Java string that the bytes encode in modified
UTF-8, where every code unit takes one byte `0xxxxxxx`, two bytes
`110xxxxx 10xxxxxx` or three bytes `1110xxxx 10xxxxxx 10xxxxxx`.  JNI defines
no result for bytes that are not modified UTF-8: `none`. -/
def NewStringUTF : List Nat → Option JString
  | [] => some []
  | b1 :: rest =>
    if b1 < 0x80 then (NewStringUTF rest).map (fun js => b1 :: js)
    else if b1 < 0xC0 then none
    else if b1 < 0xE0 then
      match rest with
      | b2 :: rest2 =>
        if isContinuation b2 then
          (NewStringUTF rest2).map (fun js => (b1 % 32 * 64 + b2 % 64) :: js)
        else none
      | [] => none
    else if b1 < 0xF0 then
      match rest with
      | b2 :: b3 :: rest3 =>
        if isContinuation b2 && isContinuation b3 then
          (NewStringUTF rest3).map
            (fun js => (b1 % 16 * 4096 + b2 % 64 * 64 + b3 % 64) :: js)
        else none
      | _ => none
    else none

/-- The call `Gio::Settings::create(schema)`; a schema that is not installed
aborts the process. -/
def Settings.create (s : State) (schema : String) : Except Fault (Settings × State) :=
  match s.store.lookup schema with
  | none => .error Fault.abort
  | some _ =>
    .ok ({ id := s.settingsCount, schema := schema },
         { s with settingsCount := s.settingsCount + 1 })

/-- Modelled from the spec: `GioUtils.hpp`, which defines `ensure_gio_init`, is
not among the sources.  The spec only says that initialisation is process-wide
and happens once; the model records that it has happened. -/
def ensure_gio_init (s : State) : State :=
  { s with gioInitialized := true }

/-! ## The program -/

/-- Lines 36-39: `getCurrentTheme`.  The state is returned unchanged. -/
def getCurrentTheme (s : State) : Except Fault (JString × State) :=
  match s.settings with
  | none => .error Fault.nullSettings
  | some st =>
    match Settings.get_string s st THEME_NAME_KEY with
    | .error e => .error e
    | .ok v =>
      match NewStringUTF (c_str v) with
      | none => .error Fault.notModifiedUtf8
      | some js => .ok (js, s)

/-- Lines 61-69: the second half of `runCallBack`, once the environment is
resolved; `callback` is the field of the handler. -/
def EventHandler.invoke (H : Host) (s : State) (callback : GlobalRef) (detachNecessary : Bool) :
    Except Fault State :=
  -- jclass runnableClass = env->GetObjectClass(callback)
  match s.globals.lookup callback with
  | none => .error (Fault.invalidRef callback)
  | some o =>
    let m := GetMethodID H s o
    let s2 := if m.1 then CallVoidMethod H m.2 callback o else m.2
    let s3 := if ExceptionCheck s2 then ExceptionDescribe s2 else s2
    .ok (if detachNecessary then DetachCurrentThread s3 else s3)

/-- Lines 51-70: `EventHandler::runCallBack`, run on the handler at `this`. -/
def EventHandler.runCallBack (H : Host) (s : State) (this : Addr) : Except Fault State :=
  match s.heap.lookup this with
  | none => .error (Fault.useAfterFree this)
  | some b =>
    -- int getEnvStat = jvm->GetEnv((void**) &env, JNI_VERSION_1_6)
    let getEnvStat := (GetEnv H s).1
    let s0 := { s with heap := setEnv s.heap this (GetEnv H s).2 }
    if getEnvStat = JNI_EDETACHED then
      let r := AttachCurrentThread H s0 this
      if r.1 ≠ 0 then .ok r.2
      else EventHandler.invoke H r.2 b.callback true
    else if getEnvStat = JNI_EVERSION then .ok s0
    else EventHandler.invoke H s0 b.callback false

/-- Lines 47-49: `EventHandler::settingChanged`, the slot body. -/
def EventHandler.settingChanged (H : Host) (s : State) (this : Addr) (_name : String) :
    Except Fault State :=
  EventHandler.runCallBack H { s with log := s.log ++ [Event.settingChanged this] } this

/-- Lines 72-74: `EventHandler::stop`.  Disconnecting a connection that is no
longer connected does nothing. -/
def EventHandler.stop (s : State) (this : Addr) : Except Fault State :=
  match s.heap.lookup this with
  | none => .error (Fault.useAfterFree this)
  | some b =>
    .ok { s with conns := s.conns.filter (fun sl => sl.id != b.settingsChangedSignalConnection),
                 log := s.log ++ [Event.disconnect b.settingsChangedSignalConnection] }

/-- Lines 76-81: the constructor, run on the fresh address `this`. -/
def EventHandler.EventHandler (s : State) (this : Addr) (jvm_ : Addr) (callback_ : GlobalRef) :
    Except Fault State :=
  match s.settings with
  | none => .error Fault.nullSettings
  | some st =>
    let c := s.connCount
    .ok { s with
      heap := (this, { jvm := jvm_, env := 0, callback := callback_,
                       settingsChangedSignalConnection := c }) :: s.heap,
      conns := s.conns ++ [{ id := c, source := st.id, key := THEME_NAME_KEY, target := this }],
      connCount := c + 1,
      log := s.log ++ [Event.connect c this] }

/-- Lines 84-93: `createEventHandler`; the result is the handle. -/
def createEventHandler (H : Host) (s : State) (callback : JObject) :
    Except Fault (Addr × State) :=
  if H.getJavaVM = JNI_OK then
    let r := NewGlobalRef H s callback
    let a := operatorNew H r.2
    match EventHandler.EventHandler a.2 a.1 H.javaVM r.1 with
    | .error e => .error e
    | .ok s3 => .ok (a.1, s3)
  else .ok (0, s)

/-- Lines 95-104: `deleteEventHandler`. -/
def deleteEventHandler (s : State) (eventHandler : Addr) : Except Fault State :=
  if eventHandler ≠ 0 then
    match s.heap.lookup eventHandler with
    | none => .error (Fault.useAfterFree eventHandler)
    | some b =>
      match DeleteGlobalRef s b.callback with
      | .error e => .error e
      | .ok s1 =>
        match EventHandler.stop s1 eventHandler with
        | .error e => .error e
        | .ok s2 => operatorDelete s2 eventHandler
  else .ok s

/-- Lines 106-110: `init`.  Assigning to the global `settings` drops the last
reference to the object it held, and the slots connected to that object go
with it. -/
def init (s : State) : Except Fault State :=
  match Settings.create (ensure_gio_init s) SETTINGS_SCHEMA_NAME with
  | .error e => .error e
  | .ok (st, s1) =>
    .ok { s1 with
      settings := some st,
      conns := match s1.settings with
        | none => s1.conns
        | some old => s1.conns.filter (fun sl => sl.source != old.id) }

/-! ## Change notifications -/

/-- The slots are run one after the other, in connection order. -/
def deliver (H : Host) (name : String) : List Slot → State → Except Fault State
  | [], s => .ok s
  | sl :: rest, s =>
    match EventHandler.settingChanged H s sl.target name with
    | .error e => .error e
    | .ok s1 => deliver H name rest s1

/-- The signal `changed::key` of the settings object `src`. -/
def emitChanged (H : Host) (s : State) (src : Nat) (key : String) : Except Fault State :=
  deliver H key (s.conns.filter (fun sl => sl.source == src && sl.key == key)) s

/-- One change notification on `key` of `schema`: the settings object the
program holds, if it is on that schema, emits its signal. -/
def keyChanged (H : Host) (s : State) (schema key : String) : Except Fault State :=
  match s.settings with
  | none => .ok s
  | some st => if st.schema = schema then emitChanged H s st.id key else .ok s

/-- One change notification on the theme key. -/
def themeChanged (H : Host) (s : State) : Except Fault State :=
  keyChanged H s SETTINGS_SCHEMA_NAME THEME_NAME_KEY

/-- Notifications on the theme key, one per host in the list. -/
def themeChangedMany : List Host → State → Except Fault State
  | [], s => .ok s
  | H :: rest, s =>
    match themeChanged H s with
    | .error e => .error e
    | .ok s1 => themeChangedMany rest s1

/-- The store after `key` of `schema` is set to `v`. -/
def setKey (store : List (String × List (String × String))) (schema key v : String) :
    List (String × List (String × String)) :=
  store.map (fun p =>
    if p.1 = schema then (p.1, (key, v) :: p.2.filter (fun q => q.1 != key)) else p)

/-- An external write to the store, followed by its change notification. -/
def writeKey (H : Host) (s : State) (schema key v : String) : Except Fault State :=
  keyChanged H { s with store := setKey s.store schema key v } schema key

/-- Calls of `createEventHandler`, one per callback; the handles are returned
in the order of the calls. -/
def createMany (H : Host) : List JObject → State → Except Fault (List Addr × State)
  | [], s => .ok ([], s)
  | cb :: rest, s =>
    match createEventHandler H s cb with
    | .error e => .error e
    | .ok (h, s1) =>
      match createMany H rest s1 with
      | .error e => .error e
      | .ok (hs, s2) => .ok (h :: hs, s2)

/-- The operations that reach the program: its four entry points, and a write
to the settings store from outside, which notifies the listeners. -/
inductive Op where
  | init
  | getCurrentTheme
  | createEventHandler (H : Host) (callback : JObject)
  | deleteEventHandler (eventHandler : Addr)
  | writeKey (H : Host) (schema key value : String)

/-- One operation; the value an entry point returns is dropped. -/
def step (s : State) : Op → Except Fault State
  | Op.init => init s
  | Op.getCurrentTheme =>
    match getCurrentTheme s with
    | .error e => .error e
    | .ok r => .ok r.2
  | Op.createEventHandler H callback =>
    match createEventHandler H s callback with
    | .error e => .error e
    | .ok r => .ok r.2
  | Op.deleteEventHandler eventHandler => deleteEventHandler s eventHandler
  | Op.writeKey H schema key value => writeKey H s schema key value

/-- A sequence of operations. -/
def run : List Op → State → Except Fault State
  | [], s => .ok s
  | op :: rest, s =>
    match step s op with
    | .error e => .error e
    | .ok t => run rest t

/-- The allocator and the reference table behave in every operation. -/
def Op.Sound : Op → Prop
  | Op.createEventHandler H _ => H.Sound
  | _ => True

/-- The value the theme key of the interface schema holds in the store. -/
def themeValue (s : State) : Option String :=
  match s.store.lookup SETTINGS_SCHEMA_NAME with
  | none => none
  | some kv => kv.lookup THEME_NAME_KEY

/-- The global `settings` holds an object opened on the interface schema. -/
def Initialized (s : State) : Prop :=
  ∃ st, s.settings = some st ∧ st.schema = SETTINGS_SCHEMA_NAME

/-- The slot that the constructor connects for the handler at `a` with
connection `c` on the settings object `src`. -/
def slotFor (src : Nat) (c : ConnId) (a : Addr) : Slot :=
  { id := c, source := src, key := THEME_NAME_KEY, target := a }

/-- The state `createEventHandler` leaves when it succeeds. -/
def created (H : Host) (s : State) (cb : JObject) (st : Settings) : State :=
  { s with
    globals := (H.newGlobalRef (s.globals.map Prod.fst), cb) :: s.globals,
    heap := (H.operatorNew (s.heap.map Prod.fst),
      { jvm := H.javaVM, env := 0, callback := H.newGlobalRef (s.globals.map Prod.fst),
        settingsChangedSignalConnection := s.connCount }) :: s.heap,
    conns := s.conns ++ [slotFor st.id s.connCount (H.operatorNew (s.heap.map Prod.fst))],
    connCount := s.connCount + 1,
    log := s.log ++ [Event.newGlobalRef (H.newGlobalRef (s.globals.map Prod.fst)) cb,
      Event.operatorNew (H.operatorNew (s.heap.map Prod.fst)),
      Event.connect s.connCount (H.operatorNew (s.heap.map Prod.fst))] }

/-- The state `deleteEventHandler` leaves for a live handler at `h` that holds
the reference `r` and the connection `c`. -/
def deleted (s : State) (h : Addr) (r : GlobalRef) (c : ConnId) : State :=
  { s with
    globals := s.globals.filter (fun p => p.1 != r),
    conns := s.conns.filter (fun sl => sl.id != c),
    heap := s.heap.filter (fun p => p.1 != h),
    log := s.log ++ [Event.deleteGlobalRef r, Event.disconnect c, Event.operatorDelete h] }

/-- The state `init` leaves when the interface schema is installed. -/
def initialized (s : State) : State :=
  { s with
    gioInitialized := true,
    settingsCount := s.settingsCount + 1,
    settings := some { id := s.settingsCount, schema := SETTINGS_SCHEMA_NAME },
    conns := match s.settings with
      | none => s.conns
      | some old => s.conns.filter (fun sl => sl.source != old.id) }

/-- The event `e1` occurs in `evs`, and so does `e2`, later. -/
def precedes (e1 e2 : Event) (evs : List Event) : Prop :=
  e1 ∈ evs ∧ e2 ∈ evs ∧ evs.indexOf e1 < evs.indexOf e2

instance (e1 e2 : Event) (evs : List Event) : Decidable (precedes e1 e2 evs) := by
  unfold precedes; exact inferInstance

/-- The events logged after the first `n`. -/
def eventsSince (n : Nat) (s : State) : List Event := s.log.drop n

/-- A state before `init`: the store has the theme key, nothing else exists. -/
def bootState (theme : String) : State :=
  { store := [(SETTINGS_SCHEMA_NAME, [(THEME_NAME_KEY, theme)])],
    gioInitialized := false, settings := none, settingsCount := 0,
    heap := [], conns := [], connCount := 0, globals := [],
    attached := false, pending := false, log := [] }

/-- A theme name that is one character outside the Basic Multilingual Plane,
U+1F600. -/
def emojiTheme : String := String.mk [Char.ofNat 0x1F600]

/-- The state after `init` when the theme key holds `emojiTheme`. -/
def emojiState : State := initialized (bootState emojiTheme)

/-- Text that has the same bytes in UTF-8 and in modified UTF-8: no NUL (which
a GVariant string cannot hold anyway) and no character outside the Basic
Multilingual Plane. -/
def PlainText (v : String) : Prop :=
  ∀ c ∈ v.data, c.toNat ≠ 0 ∧ c.toNat < 0x10000

instance (v : String) : Decidable (PlainText v) := by
  unfold PlainText; exact inferInstance

/-- The state after `init` on `bootState "Adwaita"`. -/
def readyState : State := initialized (bootState "Adwaita")

/-- A host on which everything succeeds: addresses and references are handed
out in increasing order. -/
def goodHost : Host :=
  { getJavaVM := 0, javaVM := 7, threadEnv := 9, versionSupported := true,
    attachCurrentThread := 0,
    operatorNew := fun live => live.foldl max 0 + 1,
    newGlobalRef := fun used => used.foldl max 0 + 1,
    hasRun := fun _ => true,
    runThrows := fun _ => false }

/-- The state `readyState` when the notifying thread is already attached to
the JVM. -/
def readyAttached : State := { readyState with attached := true }

/-- A host whose JVM does not support `JNI_VERSION_1_6`. -/
def oldJvmHost : Host := { goodHost with versionSupported := false }

/-- A host on which the lookup of `run` fails for every object. -/
def noRunHost : Host := { goodHost with hasRun := fun _ => false }

/-- A host on which every callback ends with an exception. -/
def throwingHost : Host := { goodHost with runThrows := fun _ => true }

/-- A host on which `AttachCurrentThread` fails with `JNI_ERR`. -/
def noAttachHost : Host := { goodHost with attachCurrentThread := -1 }

/-- The events an operation adds to the log of `s`, if it returns. -/
def newEvents (s : State) (r : Except Fault State) : Option (List Event) :=
  match r with
  | .ok t => some (eventsSince s.log.length t)
  | .error _ => none

/-- The state after `createEventHandler` for the callback `100` on
`readyState`: one handler at address `1`, holding reference `1` and
connection `0`. -/
def oneBridge : State :=
  created goodHost readyState 100 { id := 0, schema := SETTINGS_SCHEMA_NAME }

/-- The state `oneBridge` when the notifying thread is already attached. -/
def oneBridgeAttached : State :=
  created goodHost readyAttached 100 { id := 0, schema := SETTINGS_SCHEMA_NAME }

/-- The state after a second `createEventHandler`, for the callback `200`: a
second handler at address `2`, holding reference `2` and connection `1`. -/
def twoBridges : State :=
  created goodHost oneBridge 200 { id := 0, schema := SETTINGS_SCHEMA_NAME }

/-- The state after a bridge was created on `readyState` and the theme was set
to `Adwaita-dark` from outside. -/
def darkState : State :=
  match run [Op.createEventHandler goodHost 100,
      Op.writeKey goodHost SETTINGS_SCHEMA_NAME THEME_NAME_KEY "Adwaita-dark"] readyState with
  | .ok s => s
  | .error _ => readyState

/-! ## Views of the state used in the statements -/

/-- What the handler at `a` holds: its callback reference and its connection,
if there is a live handler at `a`. -/
def bridgeOf (s : State) (a : Addr) : Option (GlobalRef × ConnId) :=
  (s.heap.lookup a).map (fun b => (b.callback, b.settingsChangedSignalConnection))

/-- The handler at `h` is alive and holds the reference `r`, which refers to
the object `cb`. -/
def Holds (s : State) (h : Addr) (r : GlobalRef) (cb : JObject) : Prop :=
  ∃ c, bridgeOf s h = some (r, c) ∧ s.globals.lookup r = some cb

/-- The slots a change notification on the theme key reaches: those connected
to the theme key of the settings object the program holds. -/
def listeners (s : State) : List Slot :=
  match s.settings with
  | none => []
  | some st =>
    if st.schema = SETTINGS_SCHEMA_NAME then
      s.conns.filter (fun sl => sl.source == st.id && sl.key == THEME_NAME_KEY)
    else []

/-- The handler at `h` has a slot that a change notification on the theme key
reaches. -/
def Listening (s : State) (h : Addr) : Prop :=
  ∃ sl ∈ listeners s, sl.target = h

/-- The environment of the notifying thread can be resolved: an attached
thread passes the version check, a detached thread can be attached. -/
def ResolvesAt (H : Host) (attached : Bool) : Prop :=
  if attached then H.versionSupported = true else H.attachCurrentThread = 0

instance (H : Host) (attached : Bool) : Decidable (ResolvesAt H attached) := by
  unfold ResolvesAt; exact inferInstance

/-- The environment can be resolved in the state `s`. -/
def Resolves (H : Host) (s : State) : Prop := ResolvesAt H s.attached

instance (H : Host) (s : State) : Decidable (Resolves H s) := by
  unfold Resolves; exact inferInstance

/-- Consistency of the state: every live handler holds a reference in use,
no two handlers share a reference or a connection, connections are numbered
below the counter, every connected slot belongs to a live handler, no
handler lives at the null address, and the settings object is the one that
`init` opens. -/
structure WF (s : State) : Prop where
  ref_valid : ∀ a r c, bridgeOf s a = some (r, c) → ∃ o, s.globals.lookup r = some o
  ref_inj : ∀ a b r c d, bridgeOf s a = some (r, c) → bridgeOf s b = some (r, d) → a = b
  conn_inj : ∀ a b r q c, bridgeOf s a = some (r, c) → bridgeOf s b = some (q, c) → a = b
  conn_lt : ∀ a r c, bridgeOf s a = some (r, c) → c < s.connCount
  slot_live : ∀ sl ∈ s.conns, ∃ r, bridgeOf s sl.target = some (r, sl.id)
  slot_nodup : (s.conns.map Slot.id).Nodup
  ne_null : ∀ a r c, bridgeOf s a = some (r, c) → a ≠ 0
  schema : ∀ st, s.settings = some st → st.schema = SETTINGS_SCHEMA_NAME

/-! ## Traces and frames used in the proofs -/

/-- The events of one run of `runCallBack` for a handler holding `r`, which
refers to `o`, on a thread that is `attached` or not and has an exception
`pending` or not. -/
def runTrace (H : Host) (attached pending : Bool) (r : GlobalRef) (o : JObject) : List Event :=
  let body :=
    (if H.hasRun o then [Event.callVoidMethod r o] else []) ++
    (if (if H.hasRun o then pending || H.runThrows o else true)
      then [Event.exceptionDescribe] else [])
  if attached then (if H.versionSupported then body else [])
  else if H.attachCurrentThread = 0 then
    Event.attachCurrentThread 0 :: (body ++ [Event.detachCurrentThread])
  else [Event.attachCurrentThread H.attachCurrentThread]

/-- Whether an exception is pending after one run. -/
def runPending (H : Host) (attached pending : Bool) : Bool :=
  if attached then (if H.versionSupported then false else pending)
  else if H.attachCurrentThread = 0 then false else pending

/-- What a run of the callback path leaves alone: everything but the log, the
pending flag and the `env` scratch field of the handlers. -/
structure Frame (s t : State) : Prop where
  store : t.store = s.store
  gio : t.gioInitialized = s.gioInitialized
  settings : t.settings = s.settings
  settingsCount : t.settingsCount = s.settingsCount
  bridge : ∀ a, bridgeOf t a = bridgeOf s a
  conns : t.conns = s.conns
  connCount : t.connCount = s.connCount
  globals : t.globals = s.globals
  attached : t.attached = s.attached

/-- What a slot leads to: the handler it targets, the reference the handler
holds and the object behind it. -/
def slotView (s : State) (sl : Slot) : Option (Addr × GlobalRef × JObject) :=
  match bridgeOf s sl.target with
  | none => none
  | some (r, _) => (s.globals.lookup r).map (fun o => (sl.target, r, o))

/-- The events of the delivery of one notification to a list of handlers. -/
def deliverTrace (H : Host) (attached : Bool) :
    Bool → List (Addr × GlobalRef × JObject) → List Event
  | _, [] => []
  | p, (a, r, o) :: rest =>
    Event.settingChanged a ::
      (runTrace H attached p r o ++ deliverTrace H attached (runPending H attached p) rest)

/-- Whether an exception is pending after the delivery to `n` handlers. -/
def deliverPending (H : Host) (attached : Bool) : Bool → Nat → Bool
  | p, 0 => p
  | p, n + 1 => deliverPending H attached (runPending H attached p) n

/-! ## Association lists -/

theorem lookup_cons_nat {β : Type} (x k : Nat) (v : β) (l : List (Nat × β)) :
    List.lookup x ((k, v) :: l) = if x = k then some v else List.lookup x l := by
  by_cases h : x = k
  · subst h; simp [List.lookup]
  · have : (x == k) = false := by simpa using h
    simp [List.lookup, this, h]

theorem lookup_filter_ne {β : Type} (l : List (Nat × β)) (a x : Nat) :
    (l.filter (fun p => p.1 != a)).lookup x = if x = a then none else l.lookup x := by
  induction l with
  | nil => simp
  | cons p l ih =>
    obtain ⟨k, v⟩ := p
    by_cases hk : k = a
    · subst hk
      simp only [List.filter_cons, bne_self_eq_false, Bool.false_eq_true, if_false, ih,
        lookup_cons_nat]
      by_cases hx : x = k <;> simp [hx]
    · have : (k != a) = true := by simpa using hk
      simp only [List.filter_cons, this, if_true, lookup_cons_nat, ih]
      by_cases hx : x = a
      · have : x ≠ k := fun e => hk (e ▸ hx)
        simp [hx, this, Ne.symm hk]
      · simp [hx]

theorem lookup_none_of_not_mem {β : Type} (l : List (Nat × β)) (x : Nat)
    (h : x ∉ l.map Prod.fst) : l.lookup x = none := by
  induction l with
  | nil => simp
  | cons p l ih =>
    obtain ⟨k, v⟩ := p
    simp only [List.map_cons, List.mem_cons, not_or] at h
    rw [lookup_cons_nat, if_neg h.1]
    exact ih h.2

theorem mem_keys_of_lookup {β : Type} (l : List (Nat × β)) (x : Nat) (v : β)
    (h : l.lookup x = some v) : x ∈ l.map Prod.fst := by
  by_contra hn
  rw [lookup_none_of_not_mem l x hn] at h
  exact Option.noConfusion h

theorem lookup_setEnv (heap : List (Addr × EventHandler)) (a e x : Addr) :
    (setEnv heap a e).lookup x =
      (heap.lookup x).map (fun b => if x = a then { b with env := e } else b) := by
  induction heap with
  | nil => simp [setEnv]
  | cons p l ih =>
    obtain ⟨k, v⟩ := p
    unfold setEnv at ih ⊢
    by_cases hk : k = a
    · subst hk
      simp only [List.map_cons, if_true, lookup_cons_nat, ih]
      by_cases hx : x = k <;> simp [hx]
    · simp only [List.map_cons, hk, if_false, lookup_cons_nat, ih]
      by_cases hx : x = k
      · subst hx; simp [hk]
      · simp [hx]

/-! ## One run of the callback path -/

theorem Frame.refl (s : State) : Frame s s :=
  ⟨rfl, rfl, rfl, rfl, fun _ => rfl, rfl, rfl, rfl, rfl⟩

theorem Frame.trans {s t u : State} (h1 : Frame s t) (h2 : Frame t u) : Frame s u :=
  ⟨h2.store.trans h1.store, h2.gio.trans h1.gio, h2.settings.trans h1.settings,
   h2.settingsCount.trans h1.settingsCount, fun a => (h2.bridge a).trans (h1.bridge a),
   h2.conns.trans h1.conns, h2.connCount.trans h1.connCount, h2.globals.trans h1.globals,
   h2.attached.trans h1.attached⟩

theorem bridgeOf_setEnv (s : State) (a e x : Addr) :
    (Option.map (fun b : EventHandler => (b.callback, b.settingsChangedSignalConnection))
      ((setEnv s.heap a e).lookup x)) = bridgeOf s x := by
  unfold bridgeOf
  rw [lookup_setEnv]
  cases List.lookup x s.heap with
  | none => rfl
  | some b => by_cases hx : x = a <;> simp [hx]

theorem bridgeOf_some (s : State) (a : Addr) (r : GlobalRef) (c : ConnId)
    (h : bridgeOf s a = some (r, c)) :
    ∃ b, s.heap.lookup a = some b ∧ b.callback = r ∧ b.settingsChangedSignalConnection = c := by
  unfold bridgeOf at h
  cases hb : List.lookup a s.heap with
  | none => rw [hb] at h; exact Option.noConfusion h
  | some b =>
    rw [hb] at h
    simp only [Option.map_some', Option.some.injEq, Prod.mk.injEq] at h
    exact ⟨b, rfl, h.1, h.2⟩

theorem runCallBack_spec (H : Host) (s : State) (this : Addr) (r : GlobalRef) (c : ConnId)
    (o : JObject) (hb : bridgeOf s this = some (r, c)) (ho : s.globals.lookup r = some o) :
    ∃ t, EventHandler.runCallBack H s this = .ok t ∧ Frame s t ∧
      t.log = s.log ++ runTrace H s.attached s.pending r o ∧
      t.pending = runPending H s.attached s.pending := by
  obtain ⟨b, hlk, hr, _⟩ := bridgeOf_some s this r c hb
  subst hr
  have hfr : ∀ e1 x, Option.map
      (fun b : EventHandler => (b.callback, b.settingsChangedSignalConnection))
      ((setEnv s.heap this e1).lookup x) = bridgeOf s x := fun e1 x => bridgeOf_setEnv s this e1 x
  have hfr2 : ∀ e1 e2 x, Option.map
      (fun b : EventHandler => (b.callback, b.settingsChangedSignalConnection))
      ((setEnv (setEnv s.heap this e1) this e2).lookup x) = bridgeOf s x := by
    intro e1 e2 x
    have := bridgeOf_setEnv { s with heap := setEnv s.heap this e1 } this e2 x
    simp only [bridgeOf] at this ⊢
    rw [this]; exact hfr e1 x
  unfold EventHandler.runCallBack
  rw [hlk]
  cases hA : s.attached <;> cases hV : H.versionSupported <;>
    by_cases hT : H.attachCurrentThread = 0 <;>
    cases hR : H.hasRun o <;> cases hP : s.pending <;> cases hX : H.runThrows o <;>
    simp [GetEnv, AttachCurrentThread, EventHandler.invoke, GetMethodID, CallVoidMethod,
      ExceptionCheck, ExceptionDescribe, DetachCurrentThread, JNI_OK, JNI_EDETACHED,
      JNI_EVERSION, runTrace, runPending, hA, hV, hT, hR, hP, hX, ho] <;>
    refine ⟨?_, ?_, ?_, ?_, ?_, ?_, ?_, ?_, ?_⟩ <;>
    first
      | rfl
      | (intro a; first | exact hfr _ a | exact hfr2 _ _ a)
      | simp [hA]

/-! ## One notification -/

theorem slotView_frame {s t : State} (h : Frame s t) (sl : Slot) :
    slotView t sl = slotView s sl := by
  unfold slotView
  rw [h.bridge, h.globals]

theorem settingChanged_spec (H : Host) (s : State) (sl : Slot) (name : String)
    (a : Addr) (r : GlobalRef) (o : JObject) (hv : slotView s sl = some (a, r, o)) :
    ∃ t, EventHandler.settingChanged H s sl.target name = .ok t ∧ Frame s t ∧
      t.log = s.log ++ Event.settingChanged a :: runTrace H s.attached s.pending r o ∧
      t.pending = runPending H s.attached s.pending := by
  unfold slotView at hv
  cases hb : bridgeOf s sl.target with
  | none => rw [hb] at hv; exact Option.noConfusion hv
  | some rc =>
    obtain ⟨r1, c⟩ := rc
    rw [hb] at hv
    dsimp only at hv
    cases ho : List.lookup r1 s.globals with
    | none => rw [ho] at hv; exact Option.noConfusion hv
    | some o1 =>
      rw [ho] at hv
      simp only [Option.map_some', Option.some.injEq, Prod.mk.injEq] at hv
      obtain ⟨ha, hr, ho1⟩ := hv
      subst ha; subst hr; subst ho1
      obtain ⟨t, ht, hf, hl, hp⟩ := runCallBack_spec H
        { s with log := s.log ++ [Event.settingChanged sl.target] } sl.target r1 c o1 hb ho
      refine ⟨t, ht, ?_, ?_, hp⟩
      · exact ⟨hf.store, hf.gio, hf.settings, hf.settingsCount, hf.bridge, hf.conns,
          hf.connCount, hf.globals, hf.attached⟩
      · rw [hl]; simp

theorem deliver_spec (H : Host) (name : String) (L : List Slot) :
    ∀ s : State, (∀ sl ∈ L, ∃ v, slotView s sl = some v) →
    ∃ t, deliver H name L s = .ok t ∧ Frame s t ∧
      t.log = s.log ++ deliverTrace H s.attached s.pending (L.filterMap (slotView s)) ∧
      t.pending = deliverPending H s.attached s.pending L.length := by
  induction L with
  | nil =>
    intro s _
    exact ⟨s, rfl, Frame.refl s, by simp [deliverTrace], rfl⟩
  | cons sl rest ih =>
    intro s hL
    obtain ⟨⟨a, r, o⟩, hv⟩ := hL sl (List.mem_cons_self _ _)
    obtain ⟨t1, ht1, hf1, hl1, hp1⟩ := settingChanged_spec H s sl name a r o hv
    have hrest : ∀ x ∈ rest, ∃ v, slotView t1 x = some v := by
      intro x hx
      rw [slotView_frame hf1]
      exact hL x (List.mem_cons_of_mem _ hx)
    obtain ⟨t, ht, hf, hl, hp⟩ := ih t1 hrest
    refine ⟨t, ?_, hf1.trans hf, ?_, ?_⟩
    · simp only [deliver, ht1, ht]
    · have hfm : rest.filterMap (slotView t1) = rest.filterMap (slotView s) := by
        congr 1
        funext x
        exact slotView_frame hf1 x
      rw [hl, hl1, hfm, hf1.attached, hp1]
      simp [List.filterMap_cons, hv, deliverTrace]
    · rw [hp, hf1.attached, hp1]
      simp [deliverPending]

/-! ## Creation and deletion, step by step -/

theorem createEventHandler_ok (H : Host) (s : State) (cb : JObject) (st : Settings)
    (hJ : H.getJavaVM = JNI_OK) (hs : s.settings = some st) :
    createEventHandler H s cb = .ok (H.operatorNew (s.heap.map Prod.fst),
      { s with
        globals := (H.newGlobalRef (s.globals.map Prod.fst), cb) :: s.globals,
        heap := (H.operatorNew (s.heap.map Prod.fst),
          { jvm := H.javaVM, env := 0, callback := H.newGlobalRef (s.globals.map Prod.fst),
            settingsChangedSignalConnection := s.connCount }) :: s.heap,
        conns := s.conns ++
          [slotFor st.id s.connCount (H.operatorNew (s.heap.map Prod.fst))],
        connCount := s.connCount + 1,
        log := s.log ++ [Event.newGlobalRef (H.newGlobalRef (s.globals.map Prod.fst)) cb,
          Event.operatorNew (H.operatorNew (s.heap.map Prod.fst)),
          Event.connect s.connCount (H.operatorNew (s.heap.map Prod.fst))] }) := by
  simp [createEventHandler, hJ, NewGlobalRef, operatorNew, EventHandler.EventHandler, hs,
    slotFor]

theorem createEventHandler_fail (H : Host) (s : State) (cb : JObject)
    (hJ : H.getJavaVM ≠ JNI_OK) : createEventHandler H s cb = .ok (0, s) := by
  simp [createEventHandler, hJ]

theorem deleteEventHandler_ok (s : State) (h : Addr) (r : GlobalRef) (c : ConnId)
    (o : JObject) (h0 : h ≠ 0) (hb : bridgeOf s h = some (r, c))
    (ho : s.globals.lookup r = some o) :
    deleteEventHandler s h = .ok
      { s with
        globals := s.globals.filter (fun p => p.1 != r),
        conns := s.conns.filter (fun sl => sl.id != c),
        heap := s.heap.filter (fun p => p.1 != h),
        log := s.log ++ [Event.deleteGlobalRef r, Event.disconnect c,
          Event.operatorDelete h] } := by
  obtain ⟨b, hlk, hr, hc⟩ := bridgeOf_some s h r c hb
  subst hr; subst hc
  simp [deleteEventHandler, h0, hlk, DeleteGlobalRef, ho, EventHandler.stop, operatorDelete]

theorem bridgeOf_cons (s : State) (a : Addr) (b : EventHandler) (x : Addr) :
    Option.map (fun b : EventHandler => (b.callback, b.settingsChangedSignalConnection))
      (List.lookup x ((a, b) :: s.heap)) =
    if x = a then some (b.callback, b.settingsChangedSignalConnection) else bridgeOf s x := by
  rw [lookup_cons_nat]
  by_cases hx : x = a <;> simp [hx, bridgeOf]

theorem bridgeOf_filter (s : State) (h x : Addr) :
    Option.map (fun b : EventHandler => (b.callback, b.settingsChangedSignalConnection))
      (List.lookup x (s.heap.filter (fun p => p.1 != h))) =
    if x = h then none else bridgeOf s x := by
  rw [lookup_filter_ne]
  by_cases hx : x = h <;> simp [hx, bridgeOf]

theorem bridgeOf_mem_keys (s : State) (a : Addr) (r : GlobalRef) (c : ConnId)
    (h : bridgeOf s a = some (r, c)) : a ∈ s.heap.map Prod.fst := by
  obtain ⟨b, hlk, _, _⟩ := bridgeOf_some s a r c h
  exact mem_keys_of_lookup _ _ _ hlk

theorem WF.frame {s t : State} (hw : WF s) (hf : Frame s t) : WF t := by
  refine ⟨?_, ?_, ?_, ?_, ?_, ?_, ?_, ?_⟩
  · intro a r c h
    rw [hf.bridge] at h; rw [hf.globals]
    exact hw.ref_valid a r c h
  · intro a b r c d h1 h2
    rw [hf.bridge] at h1 h2
    exact hw.ref_inj a b r c d h1 h2
  · intro a b r q c h1 h2
    rw [hf.bridge] at h1 h2
    exact hw.conn_inj a b r q c h1 h2
  · intro a r c h
    rw [hf.bridge] at h; rw [hf.connCount]
    exact hw.conn_lt a r c h
  · intro sl hsl
    rw [hf.conns] at hsl
    obtain ⟨r, hr⟩ := hw.slot_live sl hsl
    exact ⟨r, by rw [hf.bridge]; exact hr⟩
  · rw [hf.conns]; exact hw.slot_nodup
  · intro a r c h
    rw [hf.bridge] at h
    exact hw.ne_null a r c h
  · intro st h
    rw [hf.settings] at h
    exact hw.schema st h

theorem WF.slot_lt {s : State} (hw : WF s) (sl : Slot) (h : sl ∈ s.conns) :
    sl.id < s.connCount := by
  obtain ⟨r, hr⟩ := hw.slot_live sl h
  exact hw.conn_lt _ _ _ hr

theorem bridgeOf_none_of_not_mem (s : State) (a : Addr) (h : a ∉ s.heap.map Prod.fst) :
    bridgeOf s a = none := by
  unfold bridgeOf
  rw [lookup_none_of_not_mem _ _ h]
  rfl

theorem bridgeOf_created (H : Host) (s : State) (cb : JObject) (st : Settings) (x : Addr) :
    bridgeOf (created H s cb st) x =
      if x = H.operatorNew (s.heap.map Prod.fst)
      then some (H.newGlobalRef (s.globals.map Prod.fst), s.connCount)
      else bridgeOf s x := by
  unfold bridgeOf created
  exact bridgeOf_cons s _ _ x

theorem globals_created (H : Host) (s : State) (cb : JObject) (st : Settings) (y : GlobalRef) :
    (created H s cb st).globals.lookup y =
      if y = H.newGlobalRef (s.globals.map Prod.fst) then some cb
      else s.globals.lookup y := by
  unfold created
  exact lookup_cons_nat _ _ _ _

theorem bridgeOf_deleted (s : State) (h : Addr) (r : GlobalRef) (c : ConnId) (x : Addr) :
    bridgeOf (deleted s h r c) x = if x = h then none else bridgeOf s x := by
  unfold bridgeOf deleted
  exact bridgeOf_filter s h x

theorem globals_deleted (s : State) (h : Addr) (r : GlobalRef) (c : ConnId) (y : GlobalRef) :
    (deleted s h r c).globals.lookup y = if y = r then none else s.globals.lookup y := by
  unfold deleted
  exact lookup_filter_ne _ _ _

theorem WF.created {s : State} (hw : WF s) (H : Host) (hH : H.Sound) (cb : JObject)
    (st : Settings) : WF (created H s cb st) := by
  have hna : bridgeOf s (H.operatorNew (s.heap.map Prod.fst)) = none :=
    bridgeOf_none_of_not_mem s _ (hH.new_fresh _)
  have hnr : s.globals.lookup (H.newGlobalRef (s.globals.map Prod.fst)) = none :=
    lookup_none_of_not_mem _ _ (hH.ref_fresh _)
  have hold : ∀ x r c, bridgeOf s x = some (r, c) →
      r ≠ H.newGlobalRef (s.globals.map Prod.fst) := by
    intro x r c hx e
    obtain ⟨o, ho⟩ := hw.ref_valid x r c hx
    rw [e, hnr] at ho
    exact Option.noConfusion ho
  refine ⟨?_, ?_, ?_, ?_, ?_, ?_, ?_, hw.schema⟩
  · intro x r c h
    rw [bridgeOf_created] at h
    rw [globals_created]
    by_cases hx : x = H.operatorNew (s.heap.map Prod.fst)
    · rw [if_pos hx] at h
      simp only [Option.some.injEq, Prod.mk.injEq] at h
      exact ⟨cb, by rw [if_pos h.1.symm]⟩
    · rw [if_neg hx] at h
      obtain ⟨o, ho⟩ := hw.ref_valid x r c h
      exact ⟨o, by rw [if_neg (hold x r c h)]; exact ho⟩
  · intro x y r c d h1 h2
    rw [bridgeOf_created] at h1 h2
    by_cases hx : x = H.operatorNew (s.heap.map Prod.fst) <;>
      by_cases hy : y = H.operatorNew (s.heap.map Prod.fst)
    · rw [hx, hy]
    · rw [if_pos hx] at h1; rw [if_neg hy] at h2
      simp only [Option.some.injEq, Prod.mk.injEq] at h1
      exact absurd h1.1.symm (hold y r d h2)
    · rw [if_neg hx] at h1; rw [if_pos hy] at h2
      simp only [Option.some.injEq, Prod.mk.injEq] at h2
      exact absurd h2.1.symm (hold x r c h1)
    · rw [if_neg hx] at h1; rw [if_neg hy] at h2
      exact hw.ref_inj x y r c d h1 h2
  · intro x y r q c h1 h2
    rw [bridgeOf_created] at h1 h2
    by_cases hx : x = H.operatorNew (s.heap.map Prod.fst) <;>
      by_cases hy : y = H.operatorNew (s.heap.map Prod.fst)
    · rw [hx, hy]
    · rw [if_pos hx] at h1; rw [if_neg hy] at h2
      simp only [Option.some.injEq, Prod.mk.injEq] at h1
      have hlt := hw.conn_lt y q c h2
      rw [← h1.2] at hlt
      exact absurd hlt (Nat.lt_irrefl _)
    · rw [if_neg hx] at h1; rw [if_pos hy] at h2
      simp only [Option.some.injEq, Prod.mk.injEq] at h2
      have hlt := hw.conn_lt x r c h1
      rw [← h2.2] at hlt
      exact absurd hlt (Nat.lt_irrefl _)
    · rw [if_neg hx] at h1; rw [if_neg hy] at h2
      exact hw.conn_inj x y r q c h1 h2
  · intro x r c h
    rw [bridgeOf_created] at h
    show c < s.connCount + 1
    by_cases hx : x = H.operatorNew (s.heap.map Prod.fst)
    · rw [if_pos hx] at h
      simp only [Option.some.injEq, Prod.mk.injEq] at h
      rw [← h.2]
      exact Nat.lt_succ_self _
    · rw [if_neg hx] at h
      exact Nat.lt_succ_of_lt (hw.conn_lt x r c h)
  · intro sl hsl
    have hsl2 : sl ∈ s.conns ++
        [slotFor st.id s.connCount (H.operatorNew (s.heap.map Prod.fst))] := hsl
    rw [List.mem_append, List.mem_singleton] at hsl2
    rw [bridgeOf_created]
    rcases hsl2 with hold2 | hnew
    · obtain ⟨r, hr⟩ := hw.slot_live sl hold2
      have hne : sl.target ≠ H.operatorNew (s.heap.map Prod.fst) := by
        intro e
        rw [e, hna] at hr
        exact Option.noConfusion hr
      exact ⟨r, by rw [if_neg hne]; exact hr⟩
    · subst hnew
      exact ⟨H.newGlobalRef (s.globals.map Prod.fst), by simp [slotFor]⟩
  · show ((s.conns ++
        [slotFor st.id s.connCount (H.operatorNew (s.heap.map Prod.fst))]).map Slot.id).Nodup
    rw [List.map_append, List.nodup_append]
    refine ⟨hw.slot_nodup, by simp, ?_⟩
    intro i hi hi2
    simp only [List.map_cons, List.map_nil, List.mem_singleton, slotFor] at hi2
    rw [List.mem_map] at hi
    obtain ⟨sl, hsl, rfl⟩ := hi
    have hlt := hw.slot_lt sl hsl
    rw [hi2] at hlt
    exact Nat.lt_irrefl _ hlt
  · intro x r c h
    rw [bridgeOf_created] at h
    by_cases hx : x = H.operatorNew (s.heap.map Prod.fst)
    · rw [hx]; exact hH.new_ne_null _
    · rw [if_neg hx] at h
      exact hw.ne_null x r c h

theorem WF.deleted {s : State} (hw : WF s) (h : Addr) (r : GlobalRef) (c : ConnId)
    (hb : bridgeOf s h = some (r, c)) : WF (deleted s h r c) := by
  refine ⟨?_, ?_, ?_, ?_, ?_, ?_, ?_, hw.schema⟩
  · intro x r1 c1 hx
    rw [bridgeOf_deleted] at hx
    rw [globals_deleted]
    by_cases hxh : x = h
    · rw [if_pos hxh] at hx; exact Option.noConfusion hx
    · rw [if_neg hxh] at hx
      obtain ⟨o, ho⟩ := hw.ref_valid x r1 c1 hx
      have hne : r1 ≠ r := by
        intro e
        subst e
        exact hxh (hw.ref_inj x h r1 c1 c hx hb)
      exact ⟨o, by rw [if_neg hne]; exact ho⟩
  · intro x y r1 c1 d1 h1 h2
    rw [bridgeOf_deleted] at h1 h2
    by_cases hx : x = h
    · rw [if_pos hx] at h1; exact Option.noConfusion h1
    · by_cases hy : y = h
      · rw [if_pos hy] at h2; exact Option.noConfusion h2
      · rw [if_neg hx] at h1; rw [if_neg hy] at h2
        exact hw.ref_inj x y r1 c1 d1 h1 h2
  · intro x y r1 q1 c1 h1 h2
    rw [bridgeOf_deleted] at h1 h2
    by_cases hx : x = h
    · rw [if_pos hx] at h1; exact Option.noConfusion h1
    · by_cases hy : y = h
      · rw [if_pos hy] at h2; exact Option.noConfusion h2
      · rw [if_neg hx] at h1; rw [if_neg hy] at h2
        exact hw.conn_inj x y r1 q1 c1 h1 h2
  · intro x r1 c1 hx
    rw [bridgeOf_deleted] at hx
    by_cases hxh : x = h
    · rw [if_pos hxh] at hx; exact Option.noConfusion hx
    · rw [if_neg hxh] at hx
      exact hw.conn_lt x r1 c1 hx
  · intro sl hsl
    have hsl2 : sl ∈ s.conns.filter (fun sl => sl.id != c) := hsl
    rw [List.mem_filter] at hsl2
    obtain ⟨hmem, hid⟩ := hsl2
    have hid2 : sl.id ≠ c := by simpa using hid
    obtain ⟨r1, hr1⟩ := hw.slot_live sl hmem
    have hne : sl.target ≠ h := by
      intro e
      rw [e, hb] at hr1
      simp only [Option.some.injEq, Prod.mk.injEq] at hr1
      exact hid2 hr1.2.symm
    exact ⟨r1, by rw [bridgeOf_deleted, if_neg hne]; exact hr1⟩
  · show ((s.conns.filter (fun sl => sl.id != c)).map Slot.id).Nodup
    exact hw.slot_nodup.sublist ((List.filter_sublist _).map _)
  · intro x r1 c1 hx
    rw [bridgeOf_deleted] at hx
    by_cases hxh : x = h
    · rw [if_pos hxh] at hx; exact Option.noConfusion hx
    · rw [if_neg hxh] at hx
      exact hw.ne_null x r1 c1 hx

/-! ## Invocations in the trace of a notification -/

theorem mem_runTrace_call (H : Host) (att p : Bool) (r q : GlobalRef) (o u : JObject)
    (h : Event.callVoidMethod r o ∈ runTrace H att p q u) :
    r = q ∧ o = u ∧ H.hasRun u = true ∧ ResolvesAt H att := by
  unfold runTrace at h
  unfold ResolvesAt
  cases att <;> by_cases hV : H.versionSupported = true <;>
    by_cases hT : H.attachCurrentThread = 0 <;>
    by_cases hR : H.hasRun u = true <;> cases p <;> by_cases hX : H.runThrows u = true <;>
    simp [hV, hT, hR, hX] at h ⊢ <;> exact h

theorem count_runTrace (H : Host) (att p : Bool) (r q : GlobalRef) (o u : JObject) :
    (runTrace H att p q u).count (Event.callVoidMethod r o) =
      if ResolvesAt H att ∧ H.hasRun u = true ∧ q = r ∧ u = o then 1 else 0 := by
  by_cases hqu : q = r ∧ u = o
  · obtain ⟨rfl, rfl⟩ := hqu
    unfold runTrace ResolvesAt
    cases att <;> by_cases hV : H.versionSupported = true <;>
      by_cases hT : H.attachCurrentThread = 0 <;>
      by_cases hR : H.hasRun u = true <;> cases p <;> by_cases hX : H.runThrows u = true <;>
      simp [hV, hT, hR, hX, List.count_cons]
  · have hne : ¬ (r = q ∧ o = u) := fun e => hqu ⟨e.1.symm, e.2.symm⟩
    have hif : ¬ (ResolvesAt H att ∧ H.hasRun u = true ∧ q = r ∧ u = o) :=
      fun e => hqu e.2.2
    rw [if_neg hif]
    unfold runTrace
    cases att <;> by_cases hV : H.versionSupported = true <;>
      by_cases hT : H.attachCurrentThread = 0 <;>
      by_cases hR : H.hasRun u = true <;> cases p <;> by_cases hX : H.runThrows u = true <;>
      simp [hV, hT, hR, hX, List.count_cons, hne]

theorem mem_deliverTrace_call (H : Host) (att : Bool) (r : GlobalRef) (o : JObject)
    (T : List (Addr × GlobalRef × JObject)) :
    ∀ p, Event.callVoidMethod r o ∈ deliverTrace H att p T →
      (∃ a, (a, r, o) ∈ T) ∧ H.hasRun o = true ∧ ResolvesAt H att := by
  induction T with
  | nil => intro p h; simp [deliverTrace] at h
  | cons v rest ih =>
    intro p h
    obtain ⟨a, q, u⟩ := v
    simp only [deliverTrace, List.mem_cons, List.mem_append] at h
    rcases h with h | h | h
    · exact Event.noConfusion h
    · obtain ⟨h1, h2, h3, h4⟩ := mem_runTrace_call H att p r q o u h
      subst h1; subst h2
      exact ⟨⟨a, List.mem_cons_self _ _⟩, h3, h4⟩
    · obtain ⟨⟨b, hb⟩, h3, h4⟩ := ih _ h
      exact ⟨⟨b, List.mem_cons_of_mem _ hb⟩, h3, h4⟩

theorem mem_deliverTrace_changed (H : Host) (att : Bool) (a : Addr) (r : GlobalRef)
    (o : JObject) (T : List (Addr × GlobalRef × JObject)) :
    ∀ p, (a, r, o) ∈ T → Event.settingChanged a ∈ deliverTrace H att p T := by
  induction T with
  | nil => intro p h; simp at h
  | cons v rest ih =>
    intro p h
    obtain ⟨b, q, u⟩ := v
    simp only [deliverTrace, List.mem_cons, List.mem_append]
    rcases List.mem_cons.mp h with h | h
    · simp only [Prod.mk.injEq] at h
      exact Or.inl (by rw [h.1])
    · exact Or.inr (Or.inr (ih _ h))

theorem count_deliverTrace (H : Host) (att : Bool) (r : GlobalRef) (o : JObject)
    (T : List (Addr × GlobalRef × JObject)) :
    ∀ p, (deliverTrace H att p T).count (Event.callVoidMethod r o) =
      if ResolvesAt H att ∧ H.hasRun o = true
      then T.countP (fun v => decide (v.2.1 = r ∧ v.2.2 = o)) else 0 := by
  induction T with
  | nil => intro p; simp [deliverTrace]
  | cons v rest ih =>
    intro p
    obtain ⟨a, q, u⟩ := v
    simp only [deliverTrace, List.count_cons, List.count_append, count_runTrace, ih,
      List.countP_cons]
    by_cases hq : q = r <;> by_cases hu : u = o <;>
      by_cases hres : ResolvesAt H att <;> by_cases hR : H.hasRun o = true <;>
      simp [hq, hu, hres, hR]
    all_goals omega

/-! ## Notifications on the theme key -/

theorem themeChanged_eq (H : Host) (s : State) :
    themeChanged H s = deliver H THEME_NAME_KEY (listeners s) s := by
  unfold themeChanged keyChanged listeners emitChanged
  cases s.settings with
  | none => rfl
  | some st => by_cases h : st.schema = SETTINGS_SCHEMA_NAME <;> simp [h, deliver]

theorem listeners_subset (s : State) (sl : Slot) (h : sl ∈ listeners s) : sl ∈ s.conns := by
  unfold listeners at h
  cases hs : s.settings with
  | none => rw [hs] at h; simp at h
  | some st =>
    rw [hs] at h
    by_cases hc : st.schema = SETTINGS_SCHEMA_NAME
    · simp only [hc, if_true] at h
      exact (List.mem_filter.mp h).1
    · simp [hc] at h

theorem listeners_sublist (s : State) : (listeners s).Sublist s.conns := by
  unfold listeners
  cases s.settings with
  | none => exact List.nil_sublist _
  | some st =>
    by_cases hc : st.schema = SETTINGS_SCHEMA_NAME
    · simp only [hc, if_true]; exact List.filter_sublist _
    · simp only [hc, if_false]; exact List.nil_sublist _

theorem listeners_frame {s t : State} (h : Frame s t) : listeners t = listeners s := by
  unfold listeners
  rw [h.settings, h.conns]

theorem WF.slotView {s : State} (hw : WF s) (sl : Slot) (h : sl ∈ s.conns) :
    ∃ r o, bridgeOf s sl.target = some (r, sl.id) ∧ s.globals.lookup r = some o ∧
      slotView s sl = some (sl.target, r, o) := by
  obtain ⟨r, hr⟩ := hw.slot_live sl h
  obtain ⟨o, ho⟩ := hw.ref_valid _ _ _ hr
  refine ⟨r, o, hr, ho, ?_⟩
  unfold DarkModeGnome.slotView
  rw [hr]
  simp [ho]

theorem slotView_some (s : State) (sl : Slot) (a : Addr) (r : GlobalRef) (o : JObject)
    (h : slotView s sl = some (a, r, o)) :
    a = sl.target ∧ (∃ c, bridgeOf s a = some (r, c)) ∧ s.globals.lookup r = some o := by
  unfold slotView at h
  cases hb : bridgeOf s sl.target with
  | none => rw [hb] at h; exact Option.noConfusion h
  | some rc =>
    obtain ⟨r1, c⟩ := rc
    rw [hb] at h
    dsimp only at h
    cases ho : List.lookup r1 s.globals with
    | none => rw [ho] at h; exact Option.noConfusion h
    | some o1 =>
      rw [ho] at h
      simp only [Option.map_some', Option.some.injEq, Prod.mk.injEq] at h
      obtain ⟨ha, hr, ho1⟩ := h
      subst ha; subst hr; subst ho1
      exact ⟨rfl, ⟨c, hb⟩, ho⟩

theorem themeChanged_spec (H : Host) (s : State) (hw : WF s) :
    ∃ t, themeChanged H s = .ok t ∧ Frame s t ∧
      t.log = s.log ++
        deliverTrace H s.attached s.pending ((listeners s).filterMap (slotView s)) ∧
      t.pending = deliverPending H s.attached s.pending (listeners s).length := by
  rw [themeChanged_eq]
  apply deliver_spec
  intro sl hsl
  obtain ⟨r, o, _, _, hv⟩ := hw.slotView sl (listeners_subset s sl hsl)
  exact ⟨_, hv⟩

theorem themeChangedMany_spec (Hs : List Host) :
    ∀ s : State, WF s →
    ∃ t, themeChangedMany Hs s = .ok t ∧ Frame s t ∧
      ∃ evs, t.log = s.log ++ evs ∧
        ∀ r o, Event.callVoidMethod r o ∈ evs →
          ∃ a, (a, r, o) ∈ (listeners s).filterMap (slotView s) := by
  induction Hs with
  | nil =>
    intro s _
    exact ⟨s, rfl, Frame.refl s, [], by simp, by simp⟩
  | cons H rest ih =>
    intro s hw
    obtain ⟨t1, ht1, hf1, hl1, _⟩ := themeChanged_spec H s hw
    obtain ⟨t, ht, hf, evs, hl, hev⟩ := ih t1 (hw.frame hf1)
    refine ⟨t, ?_, hf1.trans hf,
      deliverTrace H s.attached s.pending ((listeners s).filterMap (slotView s)) ++ evs,
      ?_, ?_⟩
    · simp only [themeChangedMany, ht1, ht]
    · rw [hl, hl1, List.append_assoc]
    · intro r o hmem
      rcases List.mem_append.mp hmem with h1 | h2
      · exact (mem_deliverTrace_call H _ r o _ _ h1).1
      · obtain ⟨a, ha⟩ := hev r o h2
        have hfm : (listeners t1).filterMap (slotView t1) =
            (listeners s).filterMap (slotView s) := by
          rw [listeners_frame hf1]
          congr 1
          funext x
          exact slotView_frame hf1 x
        rw [hfm] at ha
        exact ⟨a, ha⟩

theorem eventsSince_append (s t : State) (evs : List Event) (h : t.log = s.log ++ evs) :
    eventsSince s.log.length t = evs := by
  unfold eventsSince
  rw [h, List.drop_left]

/-! ## Frames without the invariant -/

theorem runCallBack_frame (H : Host) (s t : State) (this : Addr)
    (h : EventHandler.runCallBack H s this = .ok t) : Frame s t := by
  cases hlk : s.heap.lookup this with
  | none =>
    unfold EventHandler.runCallBack at h
    rw [hlk] at h
    exact Except.noConfusion h
  | some b =>
    have hb : bridgeOf s this = some (b.callback, b.settingsChangedSignalConnection) := by
      simp [bridgeOf, hlk]
    cases ho : s.globals.lookup b.callback with
    | some o =>
      obtain ⟨u, hu, hf, _⟩ := runCallBack_spec H s this _ _ o hb ho
      rw [hu] at h
      injection h with h
      rw [← h]; exact hf
    | none =>
      have hfr : ∀ e1 x, Option.map
          (fun b : EventHandler => (b.callback, b.settingsChangedSignalConnection))
          ((setEnv s.heap this e1).lookup x) = bridgeOf s x :=
        fun e1 x => bridgeOf_setEnv s this e1 x
      unfold EventHandler.runCallBack at h
      rw [hlk] at h
      cases hA : s.attached <;> by_cases hV : H.versionSupported = true <;>
        by_cases hT : H.attachCurrentThread = 0 <;>
        simp [GetEnv, AttachCurrentThread, EventHandler.invoke, JNI_OK, JNI_EDETACHED,
          JNI_EVERSION, hA, hV, hT, ho] at h <;>
        subst h <;>
        refine ⟨?_, ?_, ?_, ?_, ?_, ?_, ?_, ?_, ?_⟩ <;>
        first
          | rfl
          | (intro a; exact hfr _ a)
          | simp [hA]

theorem deliver_frame (H : Host) (name : String) (L : List Slot) :
    ∀ s t : State, deliver H name L s = .ok t → Frame s t := by
  induction L with
  | nil =>
    intro s t h
    simp only [deliver] at h
    injection h with h
    rw [← h]; exact Frame.refl s
  | cons sl rest ih =>
    intro s t h
    simp only [deliver] at h
    cases h1 : EventHandler.settingChanged H s sl.target name with
    | error e => rw [h1] at h; exact Except.noConfusion h
    | ok s1 =>
      rw [h1] at h
      have hf1 := runCallBack_frame H _ s1 sl.target h1
      have hf0 : Frame s s1 :=
        ⟨hf1.store, hf1.gio, hf1.settings, hf1.settingsCount, hf1.bridge, hf1.conns,
          hf1.connCount, hf1.globals, hf1.attached⟩
      exact hf0.trans (ih s1 t h)

theorem keyChanged_frame (H : Host) (s t : State) (schema key : String)
    (h : keyChanged H s schema key = .ok t) : Frame s t := by
  unfold keyChanged at h
  cases hs : s.settings with
  | none =>
    rw [hs] at h
    injection h with h
    rw [← h]; exact Frame.refl s
  | some st =>
    rw [hs] at h
    by_cases hc : st.schema = schema
    · simp only [hc, if_true] at h
      exact deliver_frame H key _ s t h
    · simp only [hc, if_false] at h
      injection h with h
      rw [← h]; exact Frame.refl s

theorem keyChanged_total (H : Host) (s : State) (schema key : String) (hw : WF s) :
    ∃ t, keyChanged H s schema key = .ok t := by
  unfold keyChanged
  cases hs : s.settings with
  | none => exact ⟨s, rfl⟩
  | some st =>
    by_cases hc : st.schema = schema
    · simp only [hc, if_true]
      unfold emitChanged
      obtain ⟨t, ht, _⟩ := deliver_spec H key
        (s.conns.filter (fun sl => sl.source == st.id && sl.key == key)) s (by
          intro sl hsl
          obtain ⟨r, o, _, _, hv⟩ := hw.slotView sl (List.mem_filter.mp hsl).1
          exact ⟨_, hv⟩)
      exact ⟨t, ht⟩
    · simp only [hc, if_false]
      exact ⟨s, rfl⟩

/-! ## The invariant along every run -/

theorem getCurrentTheme_state (s : State) (r : JString × State)
    (h : getCurrentTheme s = .ok r) : r.2 = s := by
  unfold getCurrentTheme at h
  cases hs : s.settings with
  | none => rw [hs] at h; exact Except.noConfusion h
  | some st =>
    rw [hs] at h
    dsimp only at h
    cases hv : Settings.get_string s st THEME_NAME_KEY with
    | error e => rw [hv] at h; exact Except.noConfusion h
    | ok v =>
      rw [hv] at h
      dsimp only at h
      cases hj : NewStringUTF (c_str v) with
      | none => rw [hj] at h; exact Except.noConfusion h
      | some js =>
        rw [hj] at h
        injection h with h
        rw [← h]

theorem init_cases (s t : State) (h : init s = .ok t) : t = initialized s := by
  unfold init Settings.create ensure_gio_init at h
  dsimp only at h
  cases hl : List.lookup SETTINGS_SCHEMA_NAME s.store with
  | none => rw [hl] at h; exact Except.noConfusion h
  | some kv =>
    rw [hl] at h
    injection h with h
    rw [← h]; rfl

theorem init_ok (s : State) (kv : List (String × String))
    (h : s.store.lookup SETTINGS_SCHEMA_NAME = some kv) : init s = .ok (initialized s) := by
  unfold init Settings.create ensure_gio_init
  dsimp only
  rw [h]
  rfl

theorem WF.of_same {s t : State} (hw : WF s) (hb : ∀ a, bridgeOf t a = bridgeOf s a)
    (hg : t.globals = s.globals) (hc : t.conns.Sublist s.conns)
    (hn : t.connCount = s.connCount)
    (hs : ∀ st, t.settings = some st → st.schema = SETTINGS_SCHEMA_NAME) : WF t := by
  refine ⟨?_, ?_, ?_, ?_, ?_, ?_, ?_, hs⟩
  · intro a r c h
    rw [hb] at h; rw [hg]
    exact hw.ref_valid a r c h
  · intro a b r c d h1 h2
    rw [hb] at h1 h2
    exact hw.ref_inj a b r c d h1 h2
  · intro a b r q c h1 h2
    rw [hb] at h1 h2
    exact hw.conn_inj a b r q c h1 h2
  · intro a r c h
    rw [hb] at h; rw [hn]
    exact hw.conn_lt a r c h
  · intro sl hsl
    obtain ⟨r, hr⟩ := hw.slot_live sl (hc.subset hsl)
    exact ⟨r, by rw [hb]; exact hr⟩
  · exact hw.slot_nodup.sublist (hc.map _)
  · intro a r c h
    rw [hb] at h
    exact hw.ne_null a r c h

theorem WF.initialized {s : State} (hw : WF s) : WF (initialized s) := by
  refine @WF.of_same s (DarkModeGnome.initialized s) hw (fun _ => rfl) rfl ?_ rfl ?_
  · show (match s.settings with
      | none => s.conns
      | some old => s.conns.filter (fun sl => sl.source != old.id)).Sublist s.conns
    cases s.settings with
    | none => exact List.Sublist.refl _
    | some old => exact List.filter_sublist _
  · intro st h
    simp only [DarkModeGnome.initialized, Option.some.injEq] at h
    rw [← h]

theorem createEventHandler_cases (H : Host) (s t : State) (cb : JObject) (h : Addr)
    (hc : createEventHandler H s cb = .ok (h, t)) :
    (H.getJavaVM ≠ JNI_OK ∧ h = 0 ∧ t = s) ∨
    (H.getJavaVM = JNI_OK ∧ h = H.operatorNew (s.heap.map Prod.fst) ∧
      ∃ st, s.settings = some st ∧ t = created H s cb st) := by
  by_cases hJ : H.getJavaVM = JNI_OK
  · right
    cases hs : s.settings with
    | none =>
      simp [createEventHandler, hJ, NewGlobalRef, operatorNew, EventHandler.EventHandler,
        hs] at hc
    | some st =>
      rw [createEventHandler_ok H s cb st hJ hs] at hc
      injection hc with hc
      simp only [Prod.mk.injEq] at hc
      exact ⟨hJ, hc.1.symm, st, rfl, hc.2.symm⟩
  · left
    rw [createEventHandler_fail H s cb hJ] at hc
    injection hc with hc
    simp only [Prod.mk.injEq] at hc
    exact ⟨hJ, hc.1.symm, hc.2.symm⟩

theorem deleteEventHandler_cases (s t : State) (h : Addr) (hw : WF s)
    (hd : deleteEventHandler s h = .ok t) :
    (h = 0 ∧ t = s) ∨ (h ≠ 0 ∧ ∃ r c, bridgeOf s h = some (r, c) ∧ t = deleted s h r c) := by
  by_cases h0 : h = 0
  · left
    subst h0
    simp [deleteEventHandler] at hd
    exact ⟨rfl, hd.symm⟩
  · right
    refine ⟨h0, ?_⟩
    cases hb : bridgeOf s h with
    | none =>
      have hlk : s.heap.lookup h = none := by
        unfold bridgeOf at hb
        cases hl : List.lookup h s.heap with
        | none => rfl
        | some b => rw [hl] at hb; exact Option.noConfusion hb
      simp [deleteEventHandler, h0, hlk] at hd
    | some rc =>
      obtain ⟨r, c⟩ := rc
      obtain ⟨o, ho⟩ := hw.ref_valid h r c hb
      rw [deleteEventHandler_ok s h r c o h0 hb ho] at hd
      injection hd with hd
      exact ⟨r, c, rfl, hd.symm⟩

theorem step_WF (s t : State) (op : Op) (hw : WF s) (hop : op.Sound)
    (h : step s op = .ok t) : WF t := by
  cases op with
  | init =>
    have := init_cases s t h
    rw [this]; exact hw.initialized
  | getCurrentTheme =>
    simp only [step] at h
    cases hg : getCurrentTheme s with
    | error e => rw [hg] at h; exact Except.noConfusion h
    | ok r =>
      rw [hg] at h
      injection h with h
      rw [← h, getCurrentTheme_state s r hg]; exact hw
  | createEventHandler H cb =>
    simp only [step] at h
    cases hc : createEventHandler H s cb with
    | error e => rw [hc] at h; exact Except.noConfusion h
    | ok r =>
      obtain ⟨a, u⟩ := r
      rw [hc] at h
      injection h with h
      dsimp only at h
      subst h
      rcases createEventHandler_cases H s u cb a hc with ⟨_, _, hu⟩ | ⟨_, _, st, _, hu⟩
      · rw [hu]; exact hw
      · rw [hu]; exact hw.created H hop cb st
  | deleteEventHandler a =>
    simp only [step] at h
    rcases deleteEventHandler_cases s t a hw h with ⟨_, ht⟩ | ⟨_, r, c, hb, ht⟩
    · rw [ht]; exact hw
    · rw [ht]; exact hw.deleted a r c hb
  | writeKey H schema key v =>
    simp only [step, writeKey] at h
    have hf := keyChanged_frame H _ t schema key h
    have hw1 : WF { s with store := setKey s.store schema key v } :=
      @WF.of_same s { s with store := setKey s.store schema key v } hw (fun _ => rfl) rfl
        (List.Sublist.refl _) rfl hw.schema
    exact hw1.frame hf

theorem run_WF (ops : List Op) :
    ∀ s t : State, WF s → (∀ op ∈ ops, op.Sound) → run ops s = .ok t → WF t := by
  induction ops with
  | nil =>
    intro s t hw _ h
    simp only [run] at h
    injection h with h
    rw [← h]; exact hw
  | cons op rest ih =>
    intro s t hw hs h
    simp only [run] at h
    cases h1 : step s op with
    | error e => rw [h1] at h; exact Except.noConfusion h
    | ok s1 =>
      rw [h1] at h
      exact ih s1 t (step_WF s s1 op hw (hs op (List.mem_cons_self _ _)) h1)
        (fun o ho => hs o (List.mem_cons_of_mem _ ho)) h

theorem bootState_WF (theme : String) : WF (bootState theme) := by
  refine ⟨?_, ?_, ?_, ?_, ?_, ?_, ?_, ?_⟩ <;>
    simp [bootState, bridgeOf]

/-- Every state the program reaches from a fresh process is consistent. -/
theorem reachable_WF (theme : String) (ops : List Op) (t : State)
    (hs : ∀ op ∈ ops, op.Sound) (h : run ops (bootState theme) = .ok t) : WF t :=
  run_WF ops (bootState theme) t (bootState_WF theme) hs h

/-! ## Concrete states -/

theorem le_foldl_max (l : List Nat) : ∀ m x : Nat, (x ∈ l ∨ x ≤ m) → x ≤ l.foldl max m := by
  induction l with
  | nil =>
    intro m x h
    rcases h with h | h
    · simp at h
    · exact h
  | cons y l ih =>
    intro m x h
    simp only [List.foldl_cons]
    apply ih
    rcases h with h | h
    · rcases List.mem_cons.mp h with h | h
      · right; rw [h]; exact Nat.le_max_right _ _
      · left; exact h
    · right; exact Nat.le_trans h (Nat.le_max_left _ _)

theorem goodHost_sound : goodHost.Sound := by
  refine ⟨?_, ?_, ?_⟩
  · intro live
    exact Nat.succ_ne_zero _
  · intro live hmem
    have := le_foldl_max live 0 _ (Or.inl hmem)
    exact Nat.lt_irrefl _ (Nat.lt_of_succ_le this)
  · intro used hmem
    have := le_foldl_max used 0 _ (Or.inl hmem)
    exact Nat.lt_irrefl _ (Nat.lt_of_succ_le this)

theorem readyState_WF : WF readyState :=
  (bootState_WF "Adwaita").initialized

theorem oneBridge_WF : WF oneBridge :=
  readyState_WF.created goodHost goodHost_sound 100 _

theorem twoBridges_WF : WF twoBridges :=
  oneBridge_WF.created goodHost goodHost_sound 200 _

theorem oneBridge_holds : Holds oneBridge 1 1 100 :=
  ⟨0, by decide, by decide⟩

/-! ## The claims about deletion -/

/-- C1: when `deleteEventHandler(h)` returns for a live bridge, no slot of the
bridge is connected any more, and every later sequence of notifications on the
theme key runs to its end without one invocation through the reference the
bridge held; if no other live bridge referred to the same callback object, the
`run` method of that object is not invoked at all. -/
theorem C1_deleted_bridge_is_not_invoked (s : State) (h : Addr) (r : GlobalRef)
    (cb : JObject) (hw : WF s) (hl : Holds s h r cb) :
    ∃ t, deleteEventHandler s h = .ok t ∧
      (∀ sl ∈ t.conns, sl.target ≠ h) ∧
      ∀ Hs : List Host, ∃ u, themeChangedMany Hs t = .ok u ∧
        (∀ o, Event.callVoidMethod r o ∉ eventsSince t.log.length u) ∧
        ((∀ a q, a ≠ h → ¬ Holds s a q cb) →
          ∀ q, Event.callVoidMethod q cb ∉ eventsSince t.log.length u) := by
  obtain ⟨c, hb, ho⟩ := hl
  have h0 := hw.ne_null h r c hb
  have hwt := hw.deleted h r c hb
  refine ⟨deleted s h r c, deleteEventHandler_ok s h r c cb h0 hb ho, ?_, ?_⟩
  · intro sl hsl e
    obtain ⟨q, hq⟩ := hwt.slot_live sl hsl
    rw [bridgeOf_deleted, if_pos e] at hq
    exact Option.noConfusion hq
  · intro Hs
    obtain ⟨u, hu, _, evs, hlog, hev⟩ := themeChangedMany_spec Hs _ hwt
    refine ⟨u, hu, ?_, ?_⟩
    · intro o hmem
      rw [eventsSince_append _ _ _ hlog] at hmem
      obtain ⟨a, ha⟩ := hev r o hmem
      obtain ⟨sl, _, hv⟩ := List.mem_filterMap.mp ha
      obtain ⟨_, _, hg⟩ := slotView_some _ sl a r o hv
      rw [globals_deleted, if_pos rfl] at hg
      exact Option.noConfusion hg
    · intro hno q hmem
      rw [eventsSince_append _ _ _ hlog] at hmem
      obtain ⟨a, ha⟩ := hev q cb hmem
      obtain ⟨sl, _, hv⟩ := List.mem_filterMap.mp ha
      obtain ⟨_, ⟨d, hd⟩, hg⟩ := slotView_some _ sl a q cb hv
      rw [bridgeOf_deleted] at hd
      rw [globals_deleted] at hg
      by_cases hah : a = h
      · rw [if_pos hah] at hd; exact Option.noConfusion hd
      · rw [if_neg hah] at hd
        by_cases hqr : q = r
        · rw [if_pos hqr] at hg; exact Option.noConfusion hg
        · rw [if_neg hqr] at hg
          exact hno a q hah ⟨d, hd, hg⟩

/-- Witness of C1: the single bridge of `oneBridge`. -/
theorem C1_witness :
    WF oneBridge ∧ Holds oneBridge 1 1 100 ∧
      ∃ t, deleteEventHandler oneBridge 1 = .ok t ∧ ∀ sl ∈ t.conns, sl.target ≠ 1 :=
  ⟨oneBridge_WF, oneBridge_holds,
    (C1_deleted_bridge_is_not_invoked oneBridge 1 1 100 oneBridge_WF oneBridge_holds).imp
      (fun _ ht => ⟨ht.1, ht.2.1⟩)⟩

/-- C7, as stated, fails on `oneBridge`: in the teardown of the handler at
address `1` the release of reference `1` is the first effect and the
disconnection of connection `0` the second, so the disconnection does not
precede the release; and in the state between the two the slot is still
connected while its reference is gone. -/
theorem C7_counterexample :
    deleteEventHandler oneBridge 1 = .ok (deleted oneBridge 1 1 0) ∧
    eventsSince oneBridge.log.length (deleted oneBridge 1 1 0) =
      [Event.deleteGlobalRef 1, Event.disconnect 0, Event.operatorDelete 1] ∧
    ¬ precedes (Event.disconnect 0) (Event.deleteGlobalRef 1)
      (eventsSince oneBridge.log.length (deleted oneBridge 1 1 0)) ∧
    DeleteGlobalRef oneBridge 1 =
      .ok { oneBridge with globals := [], log := oneBridge.log ++ [Event.deleteGlobalRef 1] } ∧
    slotFor 0 0 1 ∈ oneBridge.conns ∧
    EventHandler.stop
      { oneBridge with globals := [], log := oneBridge.log ++ [Event.deleteGlobalRef 1] } 1 =
      .ok { oneBridge with
            globals := [],
            conns := [],
            log := oneBridge.log ++ [Event.deleteGlobalRef 1] ++ [Event.disconnect 0] } := by
  refine ⟨rfl, by decide, by decide, rfl, by decide, rfl⟩

/-- C7, amended: for a live bridge the teardown is the release of the callback
reference, then the disconnection of the listener, then the deallocation of
the handler, in this order; between the first and the second step the slots
are as before and the reference is released; after the second step no slot
targets the handler. -/
theorem C7_release_then_disconnect (s : State) (h : Addr) (r : GlobalRef) (cb : JObject)
    (hw : WF s) (hl : Holds s h r cb) :
    ∃ c mid mid2 t, bridgeOf s h = some (r, c) ∧
      DeleteGlobalRef s r = .ok mid ∧ EventHandler.stop mid h = .ok mid2 ∧
      operatorDelete mid2 h = .ok t ∧ deleteEventHandler s h = .ok t ∧
      eventsSince s.log.length t =
        [Event.deleteGlobalRef r, Event.disconnect c, Event.operatorDelete h] ∧
      precedes (Event.deleteGlobalRef r) (Event.disconnect c) (eventsSince s.log.length t) ∧
      mid.conns = s.conns ∧ mid.globals.lookup r = none ∧
      (∀ sl ∈ mid2.conns, sl.target ≠ h) ∧ bridgeOf t h = none := by
  obtain ⟨c, hb, ho⟩ := hl
  have h0 := hw.ne_null h r c hb
  obtain ⟨b, hlk, hr, hc⟩ := bridgeOf_some s h r c hb
  have hev : eventsSince s.log.length (deleted s h r c) =
      [Event.deleteGlobalRef r, Event.disconnect c, Event.operatorDelete h] :=
    eventsSince_append s _ _ rfl
  refine ⟨c, { s with globals := s.globals.filter (fun p => p.1 != r),
                      log := s.log ++ [Event.deleteGlobalRef r] },
    { s with globals := s.globals.filter (fun p => p.1 != r),
             conns := s.conns.filter (fun sl => sl.id != c),
             log := s.log ++ [Event.deleteGlobalRef r] ++ [Event.disconnect c] },
    deleted s h r c, hb, ?_, ?_, ?_, deleteEventHandler_ok s h r c cb h0 hb ho, hev, ?_, rfl,
    ?_, ?_, ?_⟩
  · simp [DeleteGlobalRef, ho]
  · simp [EventHandler.stop, hlk, hc]
  · simp [operatorDelete, hlk, deleted]
  · rw [hev]
    refine ⟨by simp, by simp, ?_⟩
    simp [List.indexOf_cons]
  · show (s.globals.filter (fun p => p.1 != r)).lookup r = none
    rw [lookup_filter_ne, if_pos rfl]
  · intro sl hsl e
    have hsl2 : sl ∈ s.conns.filter (fun sl => sl.id != c) := hsl
    obtain ⟨hmem, hid⟩ := List.mem_filter.mp hsl2
    obtain ⟨q, hq⟩ := hw.slot_live sl hmem
    rw [e, hb] at hq
    simp only [Option.some.injEq, Prod.mk.injEq] at hq
    simp [hq.2] at hid
  · rw [bridgeOf_deleted, if_pos rfl]

/-- Witness of C7, amended: the single bridge of `oneBridge`. -/
theorem C7_witness :
    WF oneBridge ∧ Holds oneBridge 1 1 100 ∧
      ∃ t, deleteEventHandler oneBridge 1 = .ok t ∧ bridgeOf t 1 = none := by
  refine ⟨oneBridge_WF, oneBridge_holds, ?_⟩
  obtain ⟨_, _, _, t, _, _, _, _, ht, _, _, _, _, _, hn⟩ :=
    C7_release_then_disconnect oneBridge 1 1 100 oneBridge_WF oneBridge_holds
  exact ⟨t, ht, hn⟩

/-- C10: the only guard of `deleteEventHandler` is the null check.  The call
leaves the state as it was exactly for the handle `0`; and after the deletion
of a live bridge a second call with the same handle is not a no-op: it passes
the guard and runs the teardown on a handler that is no longer alive, which is
a use after free. -/
theorem C10_delete_is_guarded_by_null_only (s : State) (h : Addr) :
    (deleteEventHandler s h = .ok s ↔ h = 0) ∧
    (∀ r cb, WF s → Holds s h r cb →
      ∃ t, deleteEventHandler s h = .ok t ∧ t ≠ s ∧
        deleteEventHandler t h = .error (Fault.useAfterFree h) ∧
        deleteEventHandler t h ≠ .ok t) := by
  constructor
  · constructor
    · intro hd
      by_contra h0
      cases hlk : s.heap.lookup h with
      | none => simp [deleteEventHandler, h0, hlk] at hd
      | some b =>
        cases ho : s.globals.lookup b.callback with
        | none => simp [deleteEventHandler, h0, hlk, DeleteGlobalRef, ho] at hd
        | some o =>
          have hb : bridgeOf s h = some (b.callback, b.settingsChangedSignalConnection) := by
            simp [bridgeOf, hlk]
          rw [deleteEventHandler_ok s h _ _ o h0 hb ho] at hd
          injection hd with hd
          have hlen := congrArg (fun x : State => x.log.length) hd
          simp [deleted] at hlen
    · intro h0
      subst h0
      simp [deleteEventHandler]
  · intro r cb hw hl
    obtain ⟨c, hb, ho⟩ := hl
    have h0 := hw.ne_null h r c hb
    have hlk : (deleted s h r c).heap.lookup h = none := by
      show (s.heap.filter (fun p => p.1 != h)).lookup h = none
      rw [lookup_filter_ne, if_pos rfl]
    have h2 : deleteEventHandler (deleted s h r c) h = .error (Fault.useAfterFree h) := by
      simp [deleteEventHandler, h0, hlk]
    refine ⟨deleted s h r c, deleteEventHandler_ok s h r c cb h0 hb ho, ?_, h2, ?_⟩
    · intro e
      have hlen := congrArg (fun x : State => x.log.length) e
      simp [deleted] at hlen
    · rw [h2]
      exact fun e => Except.noConfusion e

/-- Witness of C10: the single bridge of `oneBridge`, deleted twice. -/
theorem C10_witness :
    WF oneBridge ∧ Holds oneBridge 1 1 100 ∧
      ∃ t, deleteEventHandler oneBridge 1 = .ok t ∧
        deleteEventHandler t 1 = .error (Fault.useAfterFree 1) := by
  refine ⟨oneBridge_WF, oneBridge_holds, ?_⟩
  obtain ⟨t, ht, _, h2, _⟩ :=
    (C10_delete_is_guarded_by_null_only oneBridge 1).2 1 100 oneBridge_WF oneBridge_holds
  exact ⟨t, ht, h2⟩

/-! ## Exactly one invocation -/

theorem listeners_count (s : State) (h : Addr) (r : GlobalRef) (cb : JObject) (c : ConnId)
    (hw : WF s) (hb : bridgeOf s h = some (r, c)) (ho : s.globals.lookup r = some cb)
    (hl : Listening s h) :
    ((listeners s).filterMap (slotView s)).countP
      (fun v => decide (v.2.1 = r ∧ v.2.2 = cb)) = 1 := by
  rw [List.countP_filterMap]
  have hcongr : (listeners s).countP
      (fun a => ((slotView s a).map (fun v => decide (v.2.1 = r ∧ v.2.2 = cb))).getD false) =
      (listeners s).countP ((fun i => i == c) ∘ Slot.id) := by
    apply List.countP_congr
    intro sl hsl
    obtain ⟨q, o, hq, hqo, hv⟩ := hw.slotView sl (listeners_subset s sl hsl)
    rw [hv]
    simp only [Option.map_some', Option.getD_some, decide_eq_true_eq, Function.comp_apply,
      beq_iff_eq]
    constructor
    · rintro ⟨hqr, _⟩
      subst hqr
      have := hw.ref_inj _ _ _ _ _ hq hb
      rw [this, hb] at hq
      simp only [Option.some.injEq, Prod.mk.injEq] at hq
      exact hq.2.symm
    · intro hid
      rw [hid] at hq
      have := hw.conn_inj _ _ _ _ _ hq hb
      rw [this, hb] at hq
      simp only [Option.some.injEq, Prod.mk.injEq] at hq
      have hqr : q = r := hq.1.symm
      subst hqr
      rw [ho] at hqo
      injection hqo with hqo
      exact ⟨rfl, hqo.symm⟩
  rw [hcongr, ← List.countP_map, ← List.count_eq_countP]
  apply List.count_eq_one_of_mem
  · exact hw.slot_nodup.sublist ((listeners_sublist s).map _)
  · obtain ⟨sl, hsl, htar⟩ := hl
    obtain ⟨q, hq⟩ := hw.slot_live sl (listeners_subset s sl hsl)
    rw [htar, hb] at hq
    simp only [Option.some.injEq, Prod.mk.injEq] at hq
    rw [hq.2]
    exact List.mem_map_of_mem _ hsl

theorem themeChanged_count (H : Host) (s : State) (h : Addr) (r : GlobalRef) (cb : JObject)
    (hw : WF s) (hh : Holds s h r cb) (hl : Listening s h) :
    ∃ u, themeChanged H s = .ok u ∧ Frame s u ∧
      (eventsSince s.log.length u).count (Event.callVoidMethod r cb) =
        if Resolves H s ∧ H.hasRun cb = true then 1 else 0 := by
  obtain ⟨c, hb, ho⟩ := hh
  obtain ⟨u, hu, hf, hlog, _⟩ := themeChanged_spec H s hw
  refine ⟨u, hu, hf, ?_⟩
  rw [eventsSince_append _ _ _ hlog, count_deliverTrace, listeners_count s h r cb c hw hb ho hl]
  rfl

theorem created_holds (H : Host) (s : State) (cb : JObject) (st : Settings) :
    Holds (created H s cb st) (H.operatorNew (s.heap.map Prod.fst))
      (H.newGlobalRef (s.globals.map Prod.fst)) cb :=
  ⟨s.connCount, by rw [bridgeOf_created, if_pos rfl], by rw [globals_created, if_pos rfl]⟩

theorem created_listening (H : Host) (s : State) (cb : JObject) (st : Settings)
    (hs : s.settings = some st) (hc : st.schema = SETTINGS_SCHEMA_NAME) :
    Listening (created H s cb st) (H.operatorNew (s.heap.map Prod.fst)) := by
  refine ⟨slotFor st.id s.connCount (H.operatorNew (s.heap.map Prod.fst)), ?_, rfl⟩
  have hs2 : (created H s cb st).settings = some st := hs
  unfold listeners
  rw [hs2]
  simp only [hc, if_true]
  rw [List.mem_filter]
  constructor
  · show _ ∈ s.conns ++ _
    simp
  · simp [slotFor]

theorem created_keeps_holds (H : Host) (hH : H.Sound) (s : State) (cb : JObject)
    (st : Settings) (a : Addr) (q : GlobalRef) (o : JObject) (hh : Holds s a q o) :
    Holds (created H s cb st) a q o := by
  obtain ⟨c, hb, ho⟩ := hh
  have hne : a ≠ H.operatorNew (s.heap.map Prod.fst) := by
    intro e
    rw [e, bridgeOf_none_of_not_mem s _ (hH.new_fresh _)] at hb
    exact Option.noConfusion hb
  have hnr : q ≠ H.newGlobalRef (s.globals.map Prod.fst) := by
    intro e
    rw [e, lookup_none_of_not_mem _ _ (hH.ref_fresh _)] at ho
    exact Option.noConfusion ho
  exact ⟨c, by rw [bridgeOf_created, if_neg hne]; exact hb,
    by rw [globals_created, if_neg hnr]; exact ho⟩

theorem created_keeps_listening (H : Host) (s : State) (cb : JObject) (st : Settings)
    (hs : s.settings = some st) (a : Addr) (hl : Listening s a) :
    Listening (created H s cb st) a := by
  obtain ⟨sl, hsl, htar⟩ := hl
  refine ⟨sl, ?_, htar⟩
  have hs2 : (created H s cb st).settings = some st := hs
  unfold listeners at hsl ⊢
  rw [hs] at hsl
  rw [hs2]
  by_cases hc : st.schema = SETTINGS_SCHEMA_NAME
  · simp only [hc, if_true] at hsl ⊢
    rw [List.mem_filter] at hsl ⊢
    exact ⟨List.mem_append_left _ hsl.1, hsl.2⟩
  · simp [hc] at hsl

/-! ## The claims about creation and delivery -/

/-- C2, as stated, fails.  On `oneBridgeAttached` the bridge for the callback
`100` was created with the non-zero handle `1` and has not been deleted, and
attaching does not fail on `oldJvmHost`; but the thread is attached to a JVM
without `JNI_VERSION_1_6`, `GetEnv` reports `JNI_EVERSION`, and the one
notification invokes nothing.  On `oneBridge` with `noRunHost` attaching
succeeds, the lookup of `run` returns null, and again nothing is invoked. -/
theorem C2_counterexample :
    createEventHandler goodHost readyAttached 100 = .ok (1, oneBridgeAttached) ∧
    oldJvmHost.attachCurrentThread = 0 ∧
    (GetEnv oldJvmHost oneBridgeAttached).1 = JNI_EVERSION ∧
    newEvents oneBridgeAttached (themeChanged oldJvmHost oneBridgeAttached) =
      some [Event.settingChanged 1] ∧
    createEventHandler goodHost readyState 100 = .ok (1, oneBridge) ∧
    noRunHost.attachCurrentThread = 0 ∧
    newEvents oneBridge (themeChanged noRunHost oneBridge) =
      some [Event.settingChanged 1, Event.attachCurrentThread 0, Event.exceptionDescribe,
        Event.detachCurrentThread] := by
  refine ⟨rfl, rfl, rfl, by decide, rfl, rfl, by decide⟩

/-- C2, amended: a bridge that `createEventHandler(cb)` returned with a
non-zero handle is live and listening; and in every consistent state in which
it is still live and listening, one change notification on the theme key runs
to its end and invokes the `run` method of `cb` through the bridge exactly
once, provided that the environment of the notifying thread is resolved (no
version mismatch, and the attach, when one is needed, succeeds) and that the
lookup of `run` succeeds. -/
theorem C2_one_notification_one_invocation (H : Host) (s t : State) (cb : JObject)
    (h : Addr) (hw : WF s) (hH : H.Sound) (hc : createEventHandler H s cb = .ok (h, t))
    (h0 : h ≠ 0) :
    ∃ r, (WF t ∧ Holds t h r cb ∧ Listening t h) ∧
      ∀ (H2 : Host) (v : State), WF v → Holds v h r cb → Listening v h →
        Resolves H2 v → H2.hasRun cb = true →
        ∃ u, themeChanged H2 v = .ok u ∧
          (eventsSince v.log.length u).count (Event.callVoidMethod r cb) = 1 := by
  rcases createEventHandler_cases H s t cb h hc with ⟨_, hz, _⟩ | ⟨_, ha, st, hs, ht⟩
  · exact absurd hz h0
  · subst ha; subst ht
    refine ⟨H.newGlobalRef (s.globals.map Prod.fst),
      ⟨hw.created H hH cb st, created_holds H s cb st,
        created_listening H s cb st hs (hw.schema st hs)⟩, ?_⟩
    intro H2 v hwv hh hl hres hrun
    obtain ⟨u, hu, _, hcount⟩ := themeChanged_count H2 v _ _ cb hwv hh hl
    refine ⟨u, hu, ?_⟩
    rw [hcount, if_pos ⟨hres, hrun⟩]

/-- Witness of C2, amended: the creation of the bridge of `oneBridge`. -/
theorem C2_witness :
    WF readyState ∧ goodHost.Sound ∧
      createEventHandler goodHost readyState 100 = .ok (1, oneBridge) ∧ (1 : Addr) ≠ 0 ∧
      Resolves goodHost oneBridge ∧ goodHost.hasRun 100 = true ∧
      ∃ r u, Holds oneBridge 1 r 100 ∧ Listening oneBridge 1 ∧
        themeChanged goodHost oneBridge = .ok u ∧
        (eventsSince oneBridge.log.length u).count (Event.callVoidMethod r 100) = 1 := by
  have hres : Resolves goodHost oneBridge := by decide
  refine ⟨readyState_WF, goodHost_sound, rfl, by decide, hres, rfl, ?_⟩
  obtain ⟨r, ⟨hw, hh, hl⟩, hall⟩ := C2_one_notification_one_invocation goodHost readyState
    oneBridge 100 1 readyState_WF goodHost_sound rfl (by decide)
  obtain ⟨u, hu, hcount⟩ := hall goodHost oneBridge hw hh hl hres rfl
  exact ⟨r, u, hh, hl, hu, hcount⟩

theorem listeners_created (H : Host) (s : State) (cb : JObject) (st : Settings)
    (hs : s.settings = some st) (hc : st.schema = SETTINGS_SCHEMA_NAME) :
    listeners (created H s cb st) =
      listeners s ++ [slotFor st.id s.connCount (H.operatorNew (s.heap.map Prod.fst))] := by
  have hs2 : (created H s cb st).settings = some st := hs
  have hc2 : (created H s cb st).conns =
      s.conns ++ [slotFor st.id s.connCount (H.operatorNew (s.heap.map Prod.fst))] := rfl
  unfold listeners
  rw [hs2, hs, hc2]
  simp [hc, List.filter_append, slotFor]

theorem no_slot_of_dead (s : State) (hw : WF s) (h : Addr) (hd : bridgeOf s h = none)
    (L : List Slot) (hL : ∀ sl ∈ L, sl ∈ s.conns) :
    L.countP (fun sl => sl.target == h) = 0 := by
  rw [List.countP_eq_zero]
  intro sl hsl
  obtain ⟨q, hq⟩ := hw.slot_live sl (hL sl hsl)
  intro e
  have e2 : sl.target = h := by simpa using e
  rw [e2, hd] at hq
  exact Option.noConfusion hq

/-- C3: in an initialised, consistent state `createEventHandler` returns, and
the handle is `0` exactly when `GetJavaVM` fails.  In that case the state is
unchanged (no global reference, no listener).  Otherwise the handle is the
address of a new handler that holds a new global reference to the callback,
exactly one connected slot targets it, that slot is reached by notifications
on the theme key, and the effects are `NewGlobalRef`, `new`, `connect`. -/
theorem C3_create_fails_only_without_vm (H : Host) (s : State) (cb : JObject) (hw : WF s)
    (hH : H.Sound) (hi : Initialized s) :
    ∃ h t, createEventHandler H s cb = .ok (h, t) ∧
      (h = 0 ↔ H.getJavaVM ≠ JNI_OK) ∧
      (H.getJavaVM ≠ JNI_OK → t = s) ∧
      (H.getJavaVM = JNI_OK → ∃ r c st,
        s.settings = some st ∧
        bridgeOf s h = none ∧ s.globals.lookup r = none ∧
        bridgeOf t h = some (r, c) ∧ t.globals = (r, cb) :: s.globals ∧
        t.conns = s.conns ++ [slotFor st.id c h] ∧
        t.conns.countP (fun sl => sl.target == h) = 1 ∧
        (listeners t).countP (fun sl => sl.target == h) = 1 ∧
        eventsSince s.log.length t =
          [Event.newGlobalRef r cb, Event.operatorNew h, Event.connect c h]) := by
  obtain ⟨st, hs, hsc⟩ := hi
  by_cases hJ : H.getJavaVM = JNI_OK
  · have hd : bridgeOf s (H.operatorNew (s.heap.map Prod.fst)) = none :=
      bridgeOf_none_of_not_mem s _ (hH.new_fresh _)
    refine ⟨_, _, createEventHandler_ok H s cb st hJ hs, ?_, fun hn => absurd hJ hn, ?_⟩
    · constructor
      · intro hz
        exact absurd hz (hH.new_ne_null _)
      · intro hn
        exact absurd hJ hn
    · intro _
      refine ⟨H.newGlobalRef (s.globals.map Prod.fst), s.connCount, st, hs, hd,
        lookup_none_of_not_mem _ _ (hH.ref_fresh _), ?_, rfl, rfl, ?_, ?_, ?_⟩
      · have := bridgeOf_created H s cb st (H.operatorNew (s.heap.map Prod.fst))
        rw [if_pos rfl] at this
        exact this
      · show (s.conns ++ [slotFor st.id s.connCount (H.operatorNew (s.heap.map Prod.fst))]).countP
          (fun sl => sl.target == H.operatorNew (s.heap.map Prod.fst)) = 1
        rw [List.countP_append, no_slot_of_dead s hw _ hd s.conns (fun _ h => h)]
        simp [slotFor]
      · have := listeners_created H s cb st hs hsc
        unfold created at this
        rw [this, List.countP_append,
          no_slot_of_dead s hw _ hd (listeners s) (listeners_subset s)]
        simp [slotFor]
      · exact eventsSince_append s _ _ rfl
  · refine ⟨0, s, createEventHandler_fail H s cb hJ, ?_, fun _ => rfl, fun h => absurd h hJ⟩
    exact ⟨fun _ => hJ, fun _ => rfl⟩

/-- Witness of C3: creation on `readyState`. -/
theorem C3_witness :
    WF readyState ∧ goodHost.Sound ∧ Initialized readyState ∧
      ∃ h t, createEventHandler goodHost readyState 100 = .ok (h, t) ∧
        (h = 0 ↔ goodHost.getJavaVM ≠ JNI_OK) := by
  have hi : Initialized readyState := ⟨_, rfl, rfl⟩
  refine ⟨readyState_WF, goodHost_sound, hi, ?_⟩
  obtain ⟨h, t, hc, hz, _⟩ :=
    C3_create_fails_only_without_vm goodHost readyState 100 readyState_WF goodHost_sound hi
  exact ⟨h, t, hc, hz⟩

/-! ## Independence of the bridges -/

theorem deleted_keeps_holds (s : State) (hw : WF s) (h : Addr) (r : GlobalRef) (c : ConnId)
    (hb : bridgeOf s h = some (r, c)) (g : Addr) (q : GlobalRef) (o : JObject)
    (hg : g ≠ h) (hh : Holds s g q o) : Holds (deleted s h r c) g q o := by
  obtain ⟨d, hd, ho⟩ := hh
  have hq : q ≠ r := by
    intro e
    subst e
    exact hg (hw.ref_inj g h q d c hd hb)
  exact ⟨d, by rw [bridgeOf_deleted, if_neg hg]; exact hd,
    by rw [globals_deleted, if_neg hq]; exact ho⟩

theorem deleted_keeps_slot (s : State) (hw : WF s) (h : Addr) (r : GlobalRef) (c : ConnId)
    (hb : bridgeOf s h = some (r, c)) (sl : Slot) (hsl : sl ∈ s.conns)
    (hg : sl.target ≠ h) : sl ∈ (deleted s h r c).conns := by
  show sl ∈ s.conns.filter (fun sl => sl.id != c)
  rw [List.mem_filter]
  refine ⟨hsl, ?_⟩
  obtain ⟨q, hq⟩ := hw.slot_live sl hsl
  have hne : sl.id ≠ c := by
    intro e
    rw [e] at hq
    exact hg (hw.conn_inj _ _ _ _ _ hq hb)
  simpa using hne

theorem deleted_keeps_listening (s : State) (hw : WF s) (h : Addr) (r : GlobalRef)
    (c : ConnId) (hb : bridgeOf s h = some (r, c)) (g : Addr) (hg : g ≠ h)
    (hl : Listening s g) : Listening (deleted s h r c) g := by
  obtain ⟨sl, hsl, htar⟩ := hl
  refine ⟨sl, ?_, htar⟩
  have hkeep := deleted_keeps_slot s hw h r c hb sl (listeners_subset s sl hsl)
    (by rw [htar]; exact hg)
  have hs2 : (deleted s h r c).settings = s.settings := rfl
  unfold listeners at hsl ⊢
  rw [hs2]
  cases hs : s.settings with
  | none => rw [hs] at hsl; simp at hsl
  | some st =>
    rw [hs] at hsl
    by_cases hc : st.schema = SETTINGS_SCHEMA_NAME
    · simp only [hc, if_true] at hsl ⊢
      rw [List.mem_filter] at hsl ⊢
      exact ⟨hkeep, hsl.2⟩
    · simp [hc] at hsl

theorem createMany_spec (H : Host) (hH : H.Sound) (hJ : H.getJavaVM = JNI_OK)
    (cbs : List JObject) :
    ∀ s : State, WF s → Initialized s →
    ∃ hs t, createMany H cbs s = .ok (hs, t) ∧ WF t ∧ Initialized t ∧
      hs.length = cbs.length ∧ (∀ a ∈ hs, bridgeOf s a = none) ∧ hs.Nodup ∧
      (∀ p ∈ hs.zip cbs, ∃ r, Holds t p.1 r p.2 ∧ Listening t p.1) ∧
      (∀ a q o, Holds s a q o → Holds t a q o) ∧ (∀ a, Listening s a → Listening t a) := by
  induction cbs with
  | nil =>
    intro s hw hi
    exact ⟨[], s, rfl, hw, hi, rfl, by simp, List.nodup_nil, by simp,
      fun _ _ _ h => h, fun _ h => h⟩
  | cons cb rest ih =>
    intro s hw hi
    obtain ⟨st, hs, hsc⟩ := hi
    have hc := createEventHandler_ok H s cb st hJ hs
    have hw1 : WF (created H s cb st) := hw.created H hH cb st
    have hi1 : Initialized (created H s cb st) := ⟨st, hs, hsc⟩
    obtain ⟨hs1, t, hm, hwt, hit, hlen, hfresh, hnd, hzip, hkh, hkl⟩ :=
      ih (created H s cb st) hw1 hi1
    have hnew : bridgeOf (created H s cb st) (H.operatorNew (s.heap.map Prod.fst)) =
        some (H.newGlobalRef (s.globals.map Prod.fst), s.connCount) := by
      rw [bridgeOf_created, if_pos rfl]
    refine ⟨H.operatorNew (s.heap.map Prod.fst) :: hs1, t, ?_, hwt, hit, ?_, ?_, ?_, ?_, ?_, ?_⟩
    · have hc2 : createEventHandler H s cb =
          .ok (H.operatorNew (s.heap.map Prod.fst), created H s cb st) := hc
      simp only [createMany, hc2, hm]
    · simp [hlen]
    · intro a ha
      rcases List.mem_cons.mp ha with ha | ha
      · rw [ha]; exact bridgeOf_none_of_not_mem s _ (hH.new_fresh _)
      · have h1 := hfresh a ha
        rw [bridgeOf_created] at h1
        by_cases hx : a = H.operatorNew (s.heap.map Prod.fst)
        · rw [if_pos hx] at h1; exact Option.noConfusion h1
        · rw [if_neg hx] at h1; exact h1
    · rw [List.nodup_cons]
      refine ⟨?_, hnd⟩
      intro hmem
      have h1 := hfresh _ hmem
      rw [hnew] at h1
      exact Option.noConfusion h1
    · intro p hp
      rw [List.zip_cons_cons] at hp
      rcases List.mem_cons.mp hp with hp | hp
      · rw [hp]
        exact ⟨_, hkh _ _ _ (created_holds H s cb st),
          hkl _ (created_listening H s cb st hs hsc)⟩
      · exact hzip p hp
    · intro a q o hh
      exact hkh a q o (created_keeps_holds H hH s cb st a q o hh)
    · intro a hl
      exact hkl a (created_keeps_listening H s cb st hs a hl)

theorem mem_zip_of_mem {α β : Type} (x : α) :
    ∀ (l : List α) (m : List β), l.length = m.length → x ∈ l → ∃ y, (x, y) ∈ l.zip m := by
  intro l
  induction l with
  | nil => intro m _ h; simp at h
  | cons a l ih =>
    intro m hlen h
    cases m with
    | nil => simp at hlen
    | cons b m =>
      rw [List.zip_cons_cons]
      rcases List.mem_cons.mp h with h | h
      · exact ⟨b, by rw [h]; exact List.mem_cons_self _ _⟩
      · obtain ⟨y, hy⟩ := ih m (by simpa using hlen) h
        exact ⟨y, List.mem_cons_of_mem _ hy⟩

/-- C4: `N` successful calls of `createEventHandler` return `N` handles that
are non-zero and pairwise distinct, each for a live, listening bridge on its
callback.  Deleting one of them leaves every other live bridge as it was: the
handler holds the same reference to the same object, its slot stays connected,
and a later change notification on the theme key runs to its end and invokes
its callback exactly once whenever the environment is resolved and the lookup
of `run` succeeds. -/
theorem C4_bridges_are_independent (H : Host) (s : State) (cbs : List JObject) (hw : WF s)
    (hH : H.Sound) (hi : Initialized s) (hJ : H.getJavaVM = JNI_OK) :
    ∃ hs t, createMany H cbs s = .ok (hs, t) ∧ hs.length = cbs.length ∧ hs.Nodup ∧
      (∀ h ∈ hs, h ≠ 0) ∧
      (∀ p ∈ hs.zip cbs, ∃ r, Holds t p.1 r p.2 ∧ Listening t p.1) ∧
      ∀ h ∈ hs, ∃ u, deleteEventHandler t h = .ok u ∧
        ∀ g r cb, g ≠ h → Holds t g r cb →
          bridgeOf u g = bridgeOf t g ∧ Holds u g r cb ∧
          (∀ sl ∈ t.conns, sl.target = g → sl ∈ u.conns) ∧
          (Listening t g → Listening u g ∧
            ∀ H2 : Host, Resolves H2 u → H2.hasRun cb = true →
              ∃ v, themeChanged H2 u = .ok v ∧
                (eventsSince u.log.length v).count (Event.callVoidMethod r cb) = 1) := by
  obtain ⟨hs, t, hm, hwt, _, hlen, _, hnd, hzip, _, _⟩ := createMany_spec H hH hJ cbs s hw hi
  have hlive : ∀ h ∈ hs, ∃ r cb, Holds t h r cb := by
    intro h hh
    obtain ⟨cb, hcb⟩ := mem_zip_of_mem h hs cbs hlen hh
    obtain ⟨r, hr, _⟩ := hzip (h, cb) hcb
    exact ⟨r, cb, hr⟩
  refine ⟨hs, t, hm, hlen, hnd, ?_, hzip, ?_⟩
  · intro h hh
    obtain ⟨r, cb, c, hb, _⟩ := hlive h hh
    exact hwt.ne_null h r c hb
  · intro h hh
    obtain ⟨r, cb, c, hb, ho⟩ := hlive h hh
    have h0 := hwt.ne_null h r c hb
    refine ⟨deleted t h r c, deleteEventHandler_ok t h r c cb h0 hb ho, ?_⟩
    intro g q o hg hgo
    have hgo2 := deleted_keeps_holds t hwt h r c hb g q o hg hgo
    refine ⟨by rw [bridgeOf_deleted, if_neg hg], hgo2, ?_, ?_⟩
    · intro sl hsl htar
      exact deleted_keeps_slot t hwt h r c hb sl hsl (by rw [htar]; exact hg)
    · intro hl
      have hl2 := deleted_keeps_listening t hwt h r c hb g hg hl
      refine ⟨hl2, ?_⟩
      intro H2 hres hrun
      obtain ⟨v, hv, _, hcount⟩ :=
        themeChanged_count H2 (deleted t h r c) g q o (hwt.deleted h r c hb) hgo2 hl2
      refine ⟨v, hv, ?_⟩
      rw [hcount, if_pos ⟨hres, hrun⟩]

/-- Witness of C4: two bridges created on `readyState`. -/
theorem C4_witness :
    WF readyState ∧ goodHost.Sound ∧ Initialized readyState ∧ goodHost.getJavaVM = JNI_OK ∧
      ∃ hs t, createMany goodHost [100, 200] readyState = .ok (hs, t) ∧ hs.Nodup ∧
        hs.length = 2 := by
  have hi : Initialized readyState := ⟨_, rfl, rfl⟩
  refine ⟨readyState_WF, goodHost_sound, hi, rfl, ?_⟩
  obtain ⟨hs, t, hm, hlen, hnd, _⟩ := C4_bridges_are_independent goodHost readyState
    [100, 200] readyState_WF goodHost_sound hi rfl
  exact ⟨hs, t, hm, hnd, hlen⟩

/-! ## The claims about one run of the callback path -/

theorem runCallBack_events (H : Host) (s : State) (this : Addr) (r : GlobalRef)
    (cb : JObject) (hh : Holds s this r cb) :
    ∃ t, EventHandler.runCallBack H s this = .ok t ∧ Frame s t ∧
      eventsSince s.log.length t = runTrace H s.attached s.pending r cb ∧
      t.pending = runPending H s.attached s.pending := by
  obtain ⟨c, hb, ho⟩ := hh
  obtain ⟨t, ht, hf, hlog, hp⟩ := runCallBack_spec H s this r c cb hb ho
  exact ⟨t, ht, hf, eventsSince_append s t _ hlog, hp⟩

/-- C8: a run of `runCallBack` on a live handler returns.  The callback is
invoked only if `GetEnv` did not report a version mismatch, the attach
succeeded when the thread was detached, and the lookup of `run` returned
non-null, and then it is the callback of this handler.  On a version mismatch
the run has no effect at all; on a failed attach its only effect is the
attempt to attach; in both cases the callback is not invoked and
`DetachCurrentThread` is not called. -/
theorem C8_callback_runs_only_when_resolved (H : Host) (s : State) (this : Addr)
    (r : GlobalRef) (cb : JObject) (hh : Holds s this r cb) :
    ∃ t, EventHandler.runCallBack H s this = .ok t ∧
      (∀ q o, Event.callVoidMethod q o ∈ eventsSince s.log.length t →
        (GetEnv H s).1 ≠ JNI_EVERSION ∧
        ((GetEnv H s).1 = JNI_EDETACHED → H.attachCurrentThread = 0) ∧
        H.hasRun o = true ∧ q = r ∧ o = cb) ∧
      ((GetEnv H s).1 = JNI_EVERSION → eventsSince s.log.length t = []) ∧
      ((GetEnv H s).1 = JNI_EDETACHED → H.attachCurrentThread ≠ 0 →
        eventsSince s.log.length t = [Event.attachCurrentThread H.attachCurrentThread]) ∧
      ((GetEnv H s).1 = JNI_EVERSION ∨
        ((GetEnv H s).1 = JNI_EDETACHED ∧ H.attachCurrentThread ≠ 0) →
        (∀ q o, Event.callVoidMethod q o ∉ eventsSince s.log.length t) ∧
        Event.detachCurrentThread ∉ eventsSince s.log.length t) := by
  obtain ⟨t, ht, _, hev, _⟩ := runCallBack_events H s this r cb hh
  refine ⟨t, ht, ?_, ?_, ?_, ?_⟩
  · intro q o hmem
    rw [hev] at hmem
    obtain ⟨h1, h2, h3, h4⟩ := mem_runTrace_call H _ _ q r o cb hmem
    subst h1; subst h2
    unfold ResolvesAt at h4
    unfold GetEnv
    cases hA : s.attached <;> by_cases hV : H.versionSupported = true <;>
      simp [hA, hV, JNI_OK, JNI_EDETACHED, JNI_EVERSION, h3] at h4 ⊢
    · exact h4
    · exact h4
  · intro hg
    rw [hev]
    unfold GetEnv at hg
    unfold runTrace
    cases hA : s.attached <;> by_cases hV : H.versionSupported = true <;>
      simp [hA, hV, JNI_OK, JNI_EDETACHED, JNI_EVERSION] at hg ⊢
  · intro hg hT
    rw [hev]
    unfold GetEnv at hg
    unfold runTrace
    cases hA : s.attached <;> by_cases hV : H.versionSupported = true <;>
      simp [hA, hV, hT, JNI_OK, JNI_EDETACHED, JNI_EVERSION] at hg ⊢
  · intro hg
    rw [hev]
    unfold GetEnv at hg
    unfold runTrace
    cases hA : s.attached <;> by_cases hV : H.versionSupported = true <;>
      by_cases hT : H.attachCurrentThread = 0 <;>
      simp [hA, hV, hT, JNI_OK, JNI_EDETACHED, JNI_EVERSION] at hg ⊢

/-- Witness of C8: the bridge of `oneBridge` on a host whose attach fails. -/
theorem C8_witness :
    Holds oneBridge 1 1 100 ∧
      ∃ t, EventHandler.runCallBack noAttachHost oneBridge 1 = .ok t ∧
        ((GetEnv noAttachHost oneBridge).1 = JNI_EDETACHED →
          noAttachHost.attachCurrentThread ≠ 0 →
          eventsSince oneBridge.log.length t =
            [Event.attachCurrentThread noAttachHost.attachCurrentThread]) := by
  refine ⟨oneBridge_holds, ?_⟩
  obtain ⟨t, ht, _, _, h3, _⟩ :=
    C8_callback_runs_only_when_resolved noAttachHost oneBridge 1 1 100 oneBridge_holds
  exact ⟨t, ht, h3⟩

/-- C9: a run of `runCallBack` on a live handler returns with the notifying
thread attached exactly if it was attached on entry.  A thread that was
attached is neither attached again nor detached.  A detached thread whose
attach succeeds is detached again exactly once, as the last effect of the run,
whatever the method lookup and the callback do.  A detached thread whose
attach fails is not detached and stays detached. -/
theorem C9_attachment_is_restored (H : Host) (s : State) (this : Addr) (r : GlobalRef)
    (cb : JObject) (hh : Holds s this r cb) :
    ∃ t, EventHandler.runCallBack H s this = .ok t ∧ t.attached = s.attached ∧
      (s.attached = true →
        Event.detachCurrentThread ∉ eventsSince s.log.length t ∧
        ∀ rc, Event.attachCurrentThread rc ∉ eventsSince s.log.length t) ∧
      (s.attached = false → H.attachCurrentThread = 0 →
        (eventsSince s.log.length t).count Event.detachCurrentThread = 1 ∧
        (eventsSince s.log.length t).head? = some (Event.attachCurrentThread 0) ∧
        (eventsSince s.log.length t).getLast? = some Event.detachCurrentThread) ∧
      (s.attached = false → H.attachCurrentThread ≠ 0 →
        Event.detachCurrentThread ∉ eventsSince s.log.length t ∧ t.attached = false) := by
  obtain ⟨t, ht, hf, hev, _⟩ := runCallBack_events H s this r cb hh
  refine ⟨t, ht, hf.attached, ?_, ?_, ?_⟩
  · intro hA
    rw [hev]
    unfold runTrace
    by_cases hV : H.versionSupported = true <;> by_cases hR : H.hasRun cb = true <;>
      cases s.pending <;> by_cases hX : H.runThrows cb = true <;>
      simp [hA, hV, hR, hX]
  · intro hA hT
    rw [hev]
    unfold runTrace
    by_cases hR : H.hasRun cb = true <;>
      cases s.pending <;> by_cases hX : H.runThrows cb = true <;>
      simp [hA, hT, hR, hX, List.count_cons]
  · intro hA hT
    rw [hev, hf.attached]
    unfold runTrace
    simp [hA, hT]

/-- Witness of C9: the bridge of `oneBridge`, notified on a detached thread
that can be attached. -/
theorem C9_witness :
    Holds oneBridge 1 1 100 ∧
      ∃ t, EventHandler.runCallBack goodHost oneBridge 1 = .ok t ∧
        t.attached = oneBridge.attached := by
  refine ⟨oneBridge_holds, ?_⟩
  obtain ⟨t, ht, ha, _⟩ := C9_attachment_is_restored goodHost oneBridge 1 1 100 oneBridge_holds
  exact ⟨t, ht, ha⟩

/-- C5: when the `run` method of the callback raises an exception, the run of
`runCallBack` returns normally; its effects are the attach (if the thread was
detached), the invocation, `ExceptionDescribe`, and the detach (if this run
attached the thread); no exception is pending and the thread is attached
exactly if it was on entry.  The notification as a whole runs to its end,
every listening bridge receives it, and every other listening bridge whose
`run` lookup succeeds has its callback invoked exactly once. -/
theorem C5_exception_is_described_not_propagated (H : Host) (s : State) (this : Addr)
    (r : GlobalRef) (cb : JObject) (hw : WF s) (hh : Holds s this r cb)
    (hres : Resolves H s) (hrun : H.hasRun cb = true) (hthrow : H.runThrows cb = true) :
    (∃ t, EventHandler.runCallBack H s this = .ok t ∧ t.pending = false ∧
      t.attached = s.attached ∧
      eventsSince s.log.length t =
        (if s.attached then [] else [Event.attachCurrentThread 0]) ++
        [Event.callVoidMethod r cb, Event.exceptionDescribe] ++
        (if s.attached then [] else [Event.detachCurrentThread])) ∧
    (∃ u, themeChanged H s = .ok u ∧
      (∀ g, Listening s g → Event.settingChanged g ∈ eventsSince s.log.length u) ∧
      ∀ g q o, g ≠ this → Holds s g q o → Listening s g → H.hasRun o = true →
        (eventsSince s.log.length u).count (Event.callVoidMethod q o) = 1) := by
  constructor
  · obtain ⟨t, ht, hf, hev, hp⟩ := runCallBack_events H s this r cb hh
    refine ⟨t, ht, ?_, hf.attached, ?_⟩
    · rw [hp]
      unfold runPending
      unfold Resolves ResolvesAt at hres
      cases hA : s.attached <;> simp [hA] at hres ⊢ <;> simp [hres]
    · rw [hev]
      unfold runTrace
      unfold Resolves ResolvesAt at hres
      cases hA : s.attached <;> simp [hA] at hres ⊢ <;> simp [hres, hrun, hthrow]
  · obtain ⟨u, hu, _, hlog, _⟩ := themeChanged_spec H s hw
    refine ⟨u, hu, ?_, ?_⟩
    · intro g hl
      obtain ⟨sl, hsl, htar⟩ := hl
      obtain ⟨q, o, _, _, hv⟩ := hw.slotView sl (listeners_subset s sl hsl)
      rw [eventsSince_append _ _ _ hlog]
      apply mem_deliverTrace_changed H s.attached g q o
      rw [List.mem_filterMap]
      exact ⟨sl, hsl, by rw [hv, htar]⟩
    · intro g q o _ hgo hl ho
      obtain ⟨v, hv, _, hcount⟩ := themeChanged_count H s g q o hw hgo hl
      rw [hu] at hv
      injection hv with hv
      rw [hv, hcount, if_pos ⟨hres, ho⟩]

/-- Witness of C5: the two bridges of `twoBridges` on a host whose callbacks
all raise. -/
theorem C5_witness :
    WF twoBridges ∧ Holds twoBridges 1 1 100 ∧ Resolves throwingHost twoBridges ∧
      throwingHost.hasRun 100 = true ∧ throwingHost.runThrows 100 = true ∧
      ∃ u, themeChanged throwingHost twoBridges = .ok u ∧
        (eventsSince twoBridges.log.length u).count (Event.callVoidMethod 2 200) = 1 := by
  have hh : Holds twoBridges 1 1 100 := ⟨0, by decide, by decide⟩
  have hres : Resolves throwingHost twoBridges := by decide
  refine ⟨twoBridges_WF, hh, hres, rfl, rfl, ?_⟩
  obtain ⟨_, u, hu, _, hcount⟩ := C5_exception_is_described_not_propagated throwingHost
    twoBridges 1 1 100 twoBridges_WF hh hres rfl rfl
  refine ⟨u, hu, hcount 2 2 200 (by decide) ⟨1, by decide, by decide⟩ ?_ rfl⟩
  exact ⟨slotFor 0 1 2, by decide, rfl⟩

/-! ## The claim about the read -/

theorem utf8EncodeChar_ne_zero (c : Nat) (hc : c ≠ 0) : ∀ b ∈ utf8EncodeChar c, b ≠ 0 := by
  intro b hb
  unfold utf8EncodeChar at hb
  by_cases h1 : c < 0x80
  · simp only [h1, if_true, List.mem_singleton] at hb
    rw [hb]; exact hc
  · by_cases h2 : c < 0x800
    · simp only [h1, h2, if_true, if_false, List.mem_cons, List.mem_singleton,
        List.mem_nil_iff, or_false] at hb
      rcases hb with hb | hb <;> omega
    · by_cases h3 : c < 0x10000
      · simp only [h1, h2, h3, if_true, if_false, List.mem_cons, List.mem_singleton,
          List.mem_nil_iff, or_false] at hb
        rcases hb with hb | hb | hb <;> omega
      · simp only [h1, h2, h3, if_false, List.mem_cons, List.mem_singleton,
          List.mem_nil_iff, or_false] at hb
        rcases hb with hb | hb | hb | hb <;> omega

theorem utf8Encode_ne_zero (cs : List Char) (h : ∀ c ∈ cs, c.toNat ≠ 0) :
    ∀ b ∈ utf8Encode cs, b ≠ 0 := by
  induction cs with
  | nil => intro b hb; simp [utf8Encode] at hb
  | cons c cs ih =>
    intro b hb
    simp only [utf8Encode, List.mem_append] at hb
    rcases hb with hb | hb
    · exact utf8EncodeChar_ne_zero c.toNat (h c (List.mem_cons_self _ _)) b hb
    · exact ih (fun x hx => h x (List.mem_cons_of_mem _ hx)) b hb

theorem c_str_of_no_nul (v : String) (h : ∀ c ∈ v.data, c.toNat ≠ 0) :
    c_str v = utf8Encode v.data := by
  unfold c_str
  rw [List.takeWhile_eq_self_iff]
  intro b hb
  simpa using utf8Encode_ne_zero v.data h b hb

theorem NewStringUTF_cons (b1 : Nat) (rest : List Nat) :
    NewStringUTF (b1 :: rest) =
      if b1 < 0x80 then (NewStringUTF rest).map (fun js => b1 :: js)
      else if b1 < 0xC0 then none
      else if b1 < 0xE0 then
        match rest with
        | b2 :: rest2 =>
          if isContinuation b2 then
            (NewStringUTF rest2).map (fun js => (b1 % 32 * 64 + b2 % 64) :: js)
          else none
        | [] => none
      else if b1 < 0xF0 then
        match rest with
        | b2 :: b3 :: rest3 =>
          if isContinuation b2 && isContinuation b3 then
            (NewStringUTF rest3).map
              (fun js => (b1 % 16 * 4096 + b2 % 64 * 64 + b3 % 64) :: js)
          else none
        | _ => none
      else none := by
  cases rest with
  | nil => rfl
  | cons b2 r2 =>
    cases r2 with
    | nil => rfl
    | cons b3 r3 => rfl

theorem NewStringUTF_encodeChar (c : Nat) (hc : c < 0x10000) (rest : List Nat) :
    NewStringUTF (utf8EncodeChar c ++ rest) = (NewStringUTF rest).map (fun js => c :: js) := by
  by_cases h1 : c < 0x80
  · have e : utf8EncodeChar c = [c] := by
      unfold utf8EncodeChar; rw [if_pos h1]
    rw [e, List.singleton_append, NewStringUTF_cons, if_pos h1]
  · by_cases h2 : c < 0x800
    · have e : utf8EncodeChar c = [0xC0 + c / 64, 0x80 + c % 64] := by
        unfold utf8EncodeChar; rw [if_neg h1, if_pos h2]
      have a1 : ¬ (0xC0 + c / 64 < 0x80) := by omega
      have a2 : ¬ (0xC0 + c / 64 < 0xC0) := by omega
      have a3 : 0xC0 + c / 64 < 0xE0 := by omega
      have a4 : isContinuation (0x80 + c % 64) = true := by
        simp only [isContinuation, Bool.and_eq_true, decide_eq_true_eq]
        omega
      have a5 : (0xC0 + c / 64) % 32 * 64 + (0x80 + c % 64) % 64 = c := by omega
      rw [e]
      simp only [List.cons_append, List.nil_append]
      rw [NewStringUTF_cons, if_neg a1, if_neg a2, if_pos a3]
      simp only [a4, if_true, a5]
    · have e : utf8EncodeChar c = [0xE0 + c / 4096, 0x80 + c / 64 % 64, 0x80 + c % 64] := by
        unfold utf8EncodeChar; rw [if_neg h1, if_neg h2, if_pos hc]
      have a1 : ¬ (0xE0 + c / 4096 < 0x80) := by omega
      have a2 : ¬ (0xE0 + c / 4096 < 0xC0) := by omega
      have a3 : ¬ (0xE0 + c / 4096 < 0xE0) := by omega
      have a4 : 0xE0 + c / 4096 < 0xF0 := by omega
      have a5 : isContinuation (0x80 + c / 64 % 64) = true := by
        simp only [isContinuation, Bool.and_eq_true, decide_eq_true_eq]
        omega
      have a6 : isContinuation (0x80 + c % 64) = true := by
        simp only [isContinuation, Bool.and_eq_true, decide_eq_true_eq]
        omega
      have a7 : (0xE0 + c / 4096) % 16 * 4096 + (0x80 + c / 64 % 64) % 64 * 64 +
          (0x80 + c % 64) % 64 = c := by omega
      rw [e]
      simp only [List.cons_append, List.nil_append]
      rw [NewStringUTF_cons, if_neg a1, if_neg a2, if_neg a3, if_pos a4]
      simp only [a5, a6, Bool.and_self, if_true, a7]

theorem NewStringUTF_utf8Encode (cs : List Char) (h : ∀ c ∈ cs, c.toNat < 0x10000) :
    NewStringUTF (utf8Encode cs) = some (utf16Encode cs) := by
  induction cs with
  | nil => rfl
  | cons c cs ih =>
    have hc := h c (List.mem_cons_self _ _)
    simp only [utf8Encode, utf16Encode]
    rw [NewStringUTF_encodeChar c.toNat hc, ih (fun x hx => h x (List.mem_cons_of_mem _ hx))]
    simp [utf16EncodeChar, hc]

theorem getCurrentTheme_spec (s : State) (V : String) (hi : Initialized s)
    (hV : themeValue s = some V) (hp : PlainText V) :
    getCurrentTheme s = .ok (javaString V, s) := by
  obtain ⟨st, hs, hsc⟩ := hi
  have hj : NewStringUTF (c_str V) = some (javaString V) := by
    rw [c_str_of_no_nul V (fun c hc => (hp c hc).1)]
    exact NewStringUTF_utf8Encode V.data (fun c hc => (hp c hc).2)
  unfold themeValue at hV
  unfold getCurrentTheme Settings.get_string
  rw [hs]
  dsimp only
  rw [hsc]
  cases hl : List.lookup SETTINGS_SCHEMA_NAME s.store with
  | none => rw [hl] at hV; exact Option.noConfusion hV
  | some kv =>
    rw [hl] at hV
    dsimp only at hV ⊢
    rw [hV]
    dsimp only
    rw [hj]

theorem deleteEventHandler_settings (s t : State) (h : Addr)
    (hd : deleteEventHandler s h = .ok t) : t.settings = s.settings := by
  by_cases h0 : h = 0
  · subst h0
    simp [deleteEventHandler] at hd
    rw [← hd]
  · cases hlk : s.heap.lookup h with
    | none => simp [deleteEventHandler, h0, hlk] at hd
    | some b =>
      cases ho : s.globals.lookup b.callback with
      | none => simp [deleteEventHandler, h0, hlk, DeleteGlobalRef, ho] at hd
      | some o =>
        simp [deleteEventHandler, h0, hlk, DeleteGlobalRef, ho, EventHandler.stop,
          operatorDelete] at hd
        rw [← hd]

theorem step_Initialized (s t : State) (op : Op) (hi : Initialized s)
    (h : step s op = .ok t) : Initialized t := by
  cases op with
  | init =>
    rw [init_cases s t h]
    exact ⟨_, rfl, rfl⟩
  | getCurrentTheme =>
    obtain ⟨st, hs, hsc⟩ := hi
    simp only [step] at h
    cases hg : getCurrentTheme s with
    | error e => rw [hg] at h; exact Except.noConfusion h
    | ok r =>
      rw [hg] at h
      injection h with h
      rw [← h, getCurrentTheme_state s r hg]
      exact ⟨st, hs, hsc⟩
  | createEventHandler H cb =>
    simp only [step] at h
    cases hc : createEventHandler H s cb with
    | error e => rw [hc] at h; exact Except.noConfusion h
    | ok r =>
      obtain ⟨a, u⟩ := r
      rw [hc] at h
      injection h with h
      dsimp only at h
      subst h
      rcases createEventHandler_cases H s u cb a hc with ⟨_, _, hu⟩ | ⟨_, _, st, _, hu⟩
      · rw [hu]; exact hi
      · rw [hu]; exact hi
  | deleteEventHandler a =>
    simp only [step] at h
    obtain ⟨st, hs, hsc⟩ := hi
    exact ⟨st, by rw [deleteEventHandler_settings s t a h]; exact hs, hsc⟩
  | writeKey H schema key v =>
    simp only [step, writeKey] at h
    have hf := keyChanged_frame H _ t schema key h
    obtain ⟨st, hs, hsc⟩ := hi
    exact ⟨st, by rw [hf.settings]; exact hs, hsc⟩

theorem run_Initialized (ops : List Op) :
    ∀ s t : State, Initialized s → run ops s = .ok t → Initialized t := by
  induction ops with
  | nil =>
    intro s t hi h
    simp only [run] at h
    injection h with h
    rw [← h]; exact hi
  | cons op rest ih =>
    intro s t hi h
    simp only [run] at h
    cases h1 : step s op with
    | error e => rw [h1] at h; exact Except.noConfusion h
    | ok s1 =>
      rw [h1] at h
      exact ih s1 t (step_Initialized s s1 op hi h1) h

/-- For text without NUL and without characters outside the Basic Multilingual
Plane the read is faithful: once `init` has completed, and whatever operations
have run since, if the theme key holds such a `V` then `getCurrentTheme`
returns the Java string with the text `V` and leaves the whole state as it
was. -/
theorem read_returns_plain_theme (s0 s1 s : State) (ops : List Op) (V : String)
    (hinit : init s0 = .ok s1) (hrun : run ops s1 = .ok s) (hV : themeValue s = some V)
    (hp : PlainText V) :
    getCurrentTheme s = .ok (javaString V, s) := by
  have h1 : Initialized s1 := by
    rw [init_cases s0 s1 hinit]
    exact ⟨_, rfl, rfl⟩
  exact getCurrentTheme_spec s V (run_Initialized ops s1 s h1 hrun) hV hp

theorem read_returns_adwaita_dark :
    init (bootState "Adwaita") = .ok readyState ∧
    run [Op.createEventHandler goodHost 100,
      Op.writeKey goodHost SETTINGS_SCHEMA_NAME THEME_NAME_KEY "Adwaita-dark"] readyState =
      .ok darkState ∧
    themeValue darkState = some "Adwaita-dark" ∧
    getCurrentTheme darkState = .ok (javaString "Adwaita-dark", darkState) :=
  ⟨rfl, rfl, rfl, read_returns_plain_theme (bootState "Adwaita") readyState darkState
    [Op.createEventHandler goodHost 100,
      Op.writeKey goodHost SETTINGS_SCHEMA_NAME THEME_NAME_KEY "Adwaita-dark"]
    "Adwaita-dark" rfl rfl rfl (by decide)⟩

/-- C6 fails on the code for a theme name with a character outside the Basic
Multilingual Plane.  After `init`, with the theme key holding the one
character U+1F600, `c_str()` hands the four bytes `F0 9F 98 80` of its UTF-8
encoding to `NewStringUTF`; they are not modified UTF-8, so JNI defines no
result, and `getCurrentTheme` does not return the Java string with that
text. -/
theorem C6_supplementary_character_is_not_returned :
    init (bootState emojiTheme) = .ok emojiState ∧
    themeValue emojiState = some emojiTheme ∧
    c_str emojiTheme = [0xF0, 0x9F, 0x98, 0x80] ∧
    NewStringUTF [0xF0, 0x9F, 0x98, 0x80] = none ∧
    javaString emojiTheme = [0xD83D, 0xDE00] ∧
    getCurrentTheme emojiState = .error Fault.notModifiedUtf8 ∧
    getCurrentTheme emojiState ≠ .ok (javaString emojiTheme, emojiState) := by
  have h : getCurrentTheme emojiState = .error Fault.notModifiedUtf8 := rfl
  refine ⟨rfl, rfl, by decide, by decide, by decide, h, ?_⟩
  rw [h]
  exact fun e => Except.noConfusion e

/-! ## The scenario of the specification -/

theorem scenario_create_notify_delete_notify :
    (match run [Op.createEventHandler goodHost 100,
        Op.writeKey goodHost SETTINGS_SCHEMA_NAME THEME_NAME_KEY "Yaru-dark",
        Op.deleteEventHandler 1,
        Op.writeKey goodHost SETTINGS_SCHEMA_NAME THEME_NAME_KEY "Adwaita"] readyState with
      | .ok s => some (s.log.count (Event.callVoidMethod 1 100), themeValue s)
      | .error _ => none) = some (1, some "Adwaita") := by
  decide

end DarkModeGnome
